import Mathlib

/-!
blockfile: a versioned, block-oriented container file.

A shallow embedding of `blockfile.go` and `v1.go`.

The storage resource is modelled as a flat name space from paths to byte
sequences, together with an environment `Env` that says which absent paths
the operating system lets be created and how large a file may grow.  The
operating-system calls the Go code relies on (`os.OpenFile`, `File.Read`,
`File.Write`, `File.ReadAt`, `File.WriteAt`, `File.Stat`) are modelled for a
regular file opened read-write.  Their failures are the ones decided by the
arguments, the current content and the environment: missing or already
existing path, path that cannot be created, negative offset, offset range
exceeding the signed 64-bit range, file size limit exceeded, end of file.

Machine integers are natural numbers reduced explicitly (`% 2 ^ 32`,
`% 2 ^ 64`); the signed offset handed to positioned I/O is an `Int`.
-/

namespace Blockfile

/-! ## Constants (blockfile.go, v1.go) -/

/-- One octet. -/
abbrev Byte := Fin 256

/-- Format revision 1 (`V1 uint8 = iota`). -/
def V1 : Nat := 1
/-- Format revision 2. -/
def V2 : Nat := 2
/-- Format revision 3. -/
def V3 : Nat := 3

/-- The magic constant `SIGNATURE uint32 = 0xb10cf11e`. -/
def SIGNATURE : Nat := 0xb10cf11e

/-- Signature plus revision byte. -/
def HEADER_SIZE_BASE : Nat := 5

/-- Base header plus the 4-byte block size. -/
def HEADER_SIZE_V1 : Nat := HEADER_SIZE_BASE + 4

/-- Largest value of a signed 64-bit file offset. -/
def maxInt64 : Nat := 2 ^ 63 - 1

/-- Conversion `int64(u)` of an unsigned 64-bit value. -/
def toInt64 (u : Nat) : Int :=
  if u < 2 ^ 63 then (u : Int) else (u : Int) - 2 ^ 64

/-- Conversion `byte(n)`: the low eight bits. -/
def byte (n : Nat) : Byte := ⟨n % 256, Nat.mod_lt n (by decide)⟩

/-! ## Errors and results -/

/-- Failures reported by the operating-system layer. -/
inductive OsError
  | exist
  | notExist
  | eof
  | unexpectedEOF
  | negativeOffset
  | invalidArgument
  | shortWrite
  | badDescriptor
  | fileTooLarge
  | cannotCreate
  deriving DecidableEq, Repr

/-- One constructor per `fmt.Errorf` site (or passed-through OS error) of the
two source files. -/
inductive Error
  | blockSizeZero
  | createFailed (e : OsError)
  | writeSignatureFailed (e : OsError)
  | writeVersionFailed (e : OsError)
  | writeVersionShort (n : Nat)
  | writeBlockSizeFailed (e : OsError)
  | v1OpenFailed (e : OsError)
  | readHeaderFailed (e : OsError)
  | readHeaderShort (want got : Nat)
  | v1ReadSignatureFailed (e : OsError)
  | v1SignatureMismatch (sig : Nat)
  | v1ReadVersionFailed (e : OsError)
  | v1VersionMismatch (ver : Nat)
  | v1ReadBlockSizeFailed
  | readBlockFailed (len : Nat) (pos : Int) (e : OsError)
  | os (e : OsError)
  | shortBlockWrite (want got blockSize : Nat)
  | misaligned (numBlks rem : Nat)
  | notImplemented (ver : Nat)
  | unsupportedVersion (ver : Nat)
  | readSignatureFailed (e : OsError)
  | readVersionFailed (e : OsError)
  | signatureMismatch (sig : Nat)
  | unexpectedVersion (ver : Nat)
  deriving DecidableEq, Repr

/-- Outcome of a Go function returning `(T, error)`: a value with a nil error,
a nil value with an error, or termination of the process by `log.Fatal`. -/
inductive Result (α : Type)
  | ok (a : α)
  | err (e : Error)
  | fatal
  deriving DecidableEq, Repr

/-- The call returned an error and no value. -/
def Result.isErr {α : Type} : Result α → Bool
  | .err _ => true
  | _ => false

/-! ## Storage model -/

/-- The file name space: the content of every existing path. -/
abbrev FS := String → Option (List Byte)

/-- Replace (or create) the content stored under `p`. -/
def FS.set (fs : FS) (p : String) (c : List Byte) : FS :=
  fun q => if q = p then some c else fs q

/-- Content after a positioned write of `buf` at offset `off`: a gap between
the old end of file and `off` reads as zero bytes. -/
def pwrite (c buf : List Byte) (off : Nat) : List Byte :=
  let base := c ++ List.replicate (off - c.length) (0 : Byte)
  base.take off ++ buf ++ base.drop (off + buf.length)

/-- Bytes delivered by a positioned read of at most `n` bytes at `off`. -/
def pread (c : List Byte) (n off : Nat) : List Byte :=
  (c.drop off).take n

/-- What the operating system admits beyond the content of the store. -/
structure Env where
  /-- Whether a file may be created under this absent path: the name is not
  empty, its parent directory exists and is writable. -/
  creatable : String → Bool
  /-- Largest size the file system accepts for a file. -/
  maxFileSize : Nat

/-- An open `*os.File`: the path it was opened on and its sequential cursor. -/
structure File where
  name : String
  offset : Nat
  deriving DecidableEq, Repr

/-- The call `os.OpenFile(fname, O_RDWR|O_CREATE|O_EXCL, 0755)`. -/
def osCreateExcl (env : Env) (fs : FS) (fname : String) : Except OsError File × FS :=
  match fs fname with
  | some _ => (.error .exist, fs)
  | none =>
    if env.creatable fname then (.ok ⟨fname, 0⟩, fs.set fname [])
    else (.error .cannotCreate, fs)

/-- The calls `os.Open(fname)` and `os.OpenFile(fname, O_RDWR, 0755)`. -/
def osOpen (fs : FS) (fname : String) : Except OsError File :=
  match fs fname with
  | none => .error .notExist
  | some _ => .ok ⟨fname, 0⟩

/-- Sequential `file.Write(b)`: byte count, error, advanced file, new store.
A write that would pass the file size limit stores the bytes that still fit
and reports their count with the error. -/
def File.Write (f : File) (env : Env) (fs : FS) (b : List Byte) :
    (Nat × Option OsError) × File × FS :=
  match fs f.name with
  | none => ((0, some .badDescriptor), f, fs)
  | some c =>
    if b.length = 0 then ((0, none), f, fs)
    else if f.offset + b.length > maxInt64 then ((0, some .invalidArgument), f, fs)
    else if f.offset + b.length > env.maxFileSize then
      if env.maxFileSize ≤ f.offset then ((0, some .fileTooLarge), f, fs)
      else ((env.maxFileSize - f.offset, some .fileTooLarge),
            { f with offset := env.maxFileSize },
            fs.set f.name (pwrite c (b.take (env.maxFileSize - f.offset)) f.offset))
    else ((b.length, none), { f with offset := f.offset + b.length },
          fs.set f.name (pwrite c b f.offset))

/-- Sequential `file.Read(buf)` with `len(buf) = n`: byte count, error, the
buffer afterwards (zero where nothing was read) and the advanced file. -/
def File.Read (f : File) (fs : FS) (n : Nat) :
    (Nat × Option OsError) × List Byte × File :=
  match fs f.name with
  | none => ((0, some .badDescriptor), List.replicate n 0, f)
  | some c =>
    let data := pread c n f.offset
    if n ≠ 0 ∧ data.length = 0 then ((0, some .eof), List.replicate n 0, f)
    else ((data.length, none), data ++ List.replicate (n - data.length) 0,
          { f with offset := f.offset + data.length })

/-- Positioned `file.ReadAt(buf, off)` with `len(buf) = n`: byte count, error
and the buffer afterwards.  As in Go, fewer than `n` bytes always come with a
non-nil error. -/
def File.ReadAt (f : File) (fs : FS) (n : Nat) (off : Int) :
    (Nat × Option OsError) × List Byte :=
  match fs f.name with
  | none => ((0, some .badDescriptor), List.replicate n 0)
  | some c =>
    if off < 0 then ((0, some .negativeOffset), List.replicate n 0)
    else
      let data := pread c n off.toNat
      ((data.length, if data.length < n then some .eof else none),
       data ++ List.replicate (n - data.length) 0)

/-- Positioned `file.WriteAt(b, off)`: byte count, error and the new store.
A write that would pass the file size limit stores the bytes that still fit;
`WriteAt` then returns the error with a count that leaves out the bytes of the
failing call, that is 0. -/
def File.WriteAt (f : File) (env : Env) (fs : FS) (b : List Byte) (off : Int) :
    (Nat × Option OsError) × FS :=
  match fs f.name with
  | none => ((0, some .badDescriptor), fs)
  | some c =>
    if off < 0 then ((0, some .negativeOffset), fs)
    else if b.length = 0 then ((0, none), fs)
    else if off.toNat + b.length > maxInt64 then ((0, some .invalidArgument), fs)
    else if off.toNat + b.length > env.maxFileSize then
      if env.maxFileSize ≤ off.toNat then ((0, some .fileTooLarge), fs)
      else ((0, some .fileTooLarge),
            fs.set f.name (pwrite c (b.take (env.maxFileSize - off.toNat)) off.toNat))
    else ((b.length, none), fs.set f.name (pwrite c b off.toNat))

/-- The size reported by `file.Stat()`. -/
def File.Stat (f : File) (fs : FS) : Except OsError Nat :=
  match fs f.name with
  | none => .error .badDescriptor
  | some c => .ok c.length

/-! ## Big-endian codec (`encoding/binary`) -/

/-- Bytes produced by `binary.Write(w, binary.BigEndian, v)` for a `uint32`. -/
def putUint32 (v : Nat) : List Byte :=
  [byte (v / 2 ^ 24), byte (v / 2 ^ 16), byte (v / 2 ^ 8), byte v]

/-- The call `binary.Read(r, binary.BigEndian, &x)` for a `uint32` on a byte
reader holding `r`: the value and the rest of the reader.  The four shifted
bytes occupy disjoint bits, so their bitwise or is their sum. -/
def readUint32 (r : List Byte) : Except OsError (Nat × List Byte) :=
  match r with
  | b0 :: b1 :: b2 :: b3 :: rest =>
    .ok (b0.val * 2 ^ 24 + b1.val * 2 ^ 16 + b2.val * 2 ^ 8 + b3.val, rest)
  | [] => .error .eof
  | _ => .error .unexpectedEOF

/-- The call `headerReader.ReadByte()`. -/
def readByte (r : List Byte) : Except OsError (Nat × List Byte) :=
  match r with
  | b :: rest => .ok (b.val, rest)
  | [] => .error .eof

/-! ## The revision-1 engine (v1.go) -/

/-- The embedded base struct: the revision tag. -/
structure BlockFileBase where
  version : Nat
  deriving DecidableEq, Repr

/-- A revision-1 handle. -/
structure BlockFileV1 extends BlockFileBase where
  fileName : String
  blockSize : Nat
  file : File
  deriving DecidableEq, Repr

/-- Create and initialise a new block file and build its handle.  The second
`if err != nil` of the source (the `log.Fatal`) follows a return on the same
condition and cannot be reached. -/
def NewBlockFileV1 (env : Env) (fs : FS) (fname : String) (blockSize : Nat) :
    Result BlockFileV1 × FS :=
  if blockSize = 0 then (.err .blockSizeZero, fs)
  else
    match osCreateExcl env fs fname with
    | (.error e, fs1) => (.err (.createFailed e), fs1)
    | (.ok file, fs1) =>
      match file.Write env fs1 (putUint32 SIGNATURE) with
      | ((_, some e), _, fs2) => (.err (.writeSignatureFailed e), fs2)
      | ((_, none), file2, fs2) =>
        match file2.Write env fs2 [byte V1] with
        | ((_, some e), _, fs3) => (.err (.writeVersionFailed e), fs3)
        | ((n, none), file3, fs3) =>
          if n ≠ 1 then (.err (.writeVersionShort n), fs3)
          else
            match file3.Write env fs3 (putUint32 blockSize) with
            | ((_, some e), _, fs4) => (.err (.writeBlockSizeFailed e), fs4)
            | ((_, none), file4, fs4) =>
              (.ok { version := 1, fileName := fname, blockSize := blockSize, file := file4 }, fs4)

/-- Open an existing revision-1 file. -/
def OpenBlockFileV1 (fs : FS) (fname : String) : Result BlockFileV1 :=
  match osOpen fs fname with
  | .error e => .err (.v1OpenFailed e)
  | .ok file =>
    match file.Read fs HEADER_SIZE_V1 with
    | ((_, some e), _, _) => .err (.readHeaderFailed e)
    | ((n, none), headerBuf, file1) =>
      if n % 2 ^ 64 ≠ HEADER_SIZE_V1 then .err (.readHeaderShort HEADER_SIZE_V1 n)
      else
        match readUint32 headerBuf with
        | .error e => .err (.v1ReadSignatureFailed e)
        | .ok (sig, r1) =>
          if sig ≠ SIGNATURE then .err (.v1SignatureMismatch sig)
          else
            match readByte r1 with
            | .error e => .err (.v1ReadVersionFailed e)
            | .ok (ver, r2) =>
              if ver ≠ V1 then .err (.v1VersionMismatch ver)
              else
                match readUint32 r2 with
                | .error _ => .err .v1ReadBlockSizeFailed
                | .ok (blockSize, _) =>
                  .ok { version := 1, fileName := fname, blockSize := blockSize, file := file1 }

/-- Byte offset handed to positioned I/O for block `blkId`:
`int64(HEADER_SIZE_V1 + blkId*uint64(bf.blockSize))`. -/
def BlockFileV1.blockPos (bf : BlockFileV1) (blkId : Nat) : Int :=
  toInt64 ((HEADER_SIZE_V1 + blkId * bf.blockSize) % 2 ^ 64)

/-- Read block `blkId`. -/
def BlockFileV1.ReadBlock (bf : BlockFileV1) (fs : FS) (blkId : Nat) : Result (List Byte) :=
  let pos := bf.blockPos blkId
  match bf.file.ReadAt fs bf.blockSize pos with
  | ((_, some e), _) => .err (.readBlockFailed bf.blockSize pos e)
  | ((_, none), buf) => .ok buf

/-- The buffer `WriteBlock` hands to the positioned write: the payload after
the `uint32(length) != bf.blockSize` adjustment. -/
def BlockFileV1.writeBuffer (bf : BlockFileV1) (blk : List Byte) : List Byte :=
  let length := blk.length
  if length % 2 ^ 32 ≠ bf.blockSize then
    if length % 2 ^ 32 < bf.blockSize then
      blk ++ List.replicate (bf.blockSize - length % 2 ^ 32) (0 : Byte)
    else blk.take bf.blockSize
  else blk

/-- Write `blk` as block `blkId`: the returned count, the returned error and
the store afterwards. -/
def BlockFileV1.WriteBlock (bf : BlockFileV1) (env : Env) (fs : FS) (blk : List Byte)
    (blkId : Nat) : (Nat × Option Error) × FS :=
  let pos := bf.blockPos blkId
  let buf := bf.writeBuffer blk
  match bf.file.WriteAt env fs buf pos with
  | ((n, some e), fs1) => ((n, some (.os e)), fs1)
  | ((n, none), fs1) =>
    if n ≠ buf.length then ((n, some (.shortBlockWrite buf.length n bf.blockSize)), fs1)
    else ((n, none), fs1)

/-- The accessor `FileName()`. -/
def BlockFileV1.FileName (bf : BlockFileV1) : String := bf.fileName

/-- Number of blocks: the count and the error returned together, or `none`
when the unsigned division by a zero block size stops the program. -/
def BlockFileV1.NumBlocks (bf : BlockFileV1) (fs : FS) : Option (Nat × Option Error) :=
  match bf.file.Stat fs with
  | .error e => some (0, some (.os e))
  | .ok fsize =>
    let size := fsize % 2 ^ 64
    let blkSz := bf.blockSize % 2 ^ 64
    let blkAreaSize := (size + 2 ^ 64 - HEADER_SIZE_V1) % 2 ^ 64
    if blkSz = 0 then none
    else
      let numBlks := blkAreaSize / blkSz
      let rem := blkAreaSize % blkSz
      if rem ≠ 0 then some (numBlks, some (.misaligned numBlks rem))
      else some (numBlks, none)

/-- The accessor `BlockSize()`. -/
def BlockFileV1.BlockSize (bf : BlockFileV1) : Nat := bf.blockSize

/-- The accessor `Version()`. -/
def BlockFileV1.Version (bf : BlockFileV1) : Nat := bf.version

/-- The accessor `HeaderSize()`. -/
def BlockFileV1.HeaderSize (_bf : BlockFileV1) : Nat := HEADER_SIZE_V1

/-! ## Version dispatch (blockfile.go) -/

/-- Create a container of revision `ver`. -/
def NewBlockFile (env : Env) (fs : FS) (fname : String) (ver : Nat) (bsize : Nat) :
    Result BlockFileV1 × FS :=
  if ver = V1 then NewBlockFileV1 env fs fname bsize
  else if ver = V2 then (.err (.notImplemented 2), fs)
  else if ver = V3 then (.err (.notImplemented 3), fs)
  else (.err (.unsupportedVersion ver), fs)

/-- Open a container: read the base header, check it, dispatch on the revision
byte.  A failing `os.Open` ends in `log.Fatal`. -/
def OpenBlockFile (fs : FS) (fname : String) : Result BlockFileV1 :=
  match osOpen fs fname with
  | .error _ => .fatal
  | .ok file =>
    match file.Read fs HEADER_SIZE_BASE with
    | ((_, some e), _, _) => .err (.readHeaderFailed e)
    | ((n, none), headerBuf, _) =>
      if n % 2 ^ 64 ≠ HEADER_SIZE_BASE then .err (.readHeaderShort HEADER_SIZE_BASE n)
      else
        match readUint32 headerBuf with
        | .error e => .err (.readSignatureFailed e)
        | .ok (sig, r1) =>
          match readByte r1 with
          | .error e => .err (.readVersionFailed e)
          | .ok (ver, _) =>
            if sig ≠ SIGNATURE then .err (.signatureMismatch sig)
            else if ver ≠ 1 ∧ ver ≠ 2 ∧ ver ≠ 3 then .err (.unexpectedVersion ver)
            else if ver = V1 then OpenBlockFileV1 fs fname
            else if ver = V2 then .err (.notImplemented 2)
            else if ver = V3 then .err (.notImplemented 3)
            else .err (.unsupportedVersion ver)

/-! ## Client scenarios -/

/-- Call `WriteBlock` once per payload, at indices `i`, `i + 1`, … in order.
The result is the store after the last call, or `none` as soon as one call
returns an error. -/
def writeBlocksFrom (bf : BlockFileV1) (env : Env) : FS → List (List Byte) → Nat → Option FS
  | fs, [], _ => some fs
  | fs, d :: ds, i =>
    match bf.WriteBlock env fs d i with
    | ((_, none), fs1) => writeBlocksFrom bf env fs1 ds (i + 1)
    | ((_, some _), _) => none

/-! ## Sample values -/

/-- Header of a revision-1 container with block size 2. -/
def sampleHeader : List Byte := [0xB1, 0x0C, 0xF1, 0x1E, 0x01, 0, 0, 0, 2]

/-- A store holding one container, `a.bf`, with no blocks yet. -/
def sampleFS : FS := fun p => if p = "a.bf" then some sampleHeader else none

/-- A handle on `a.bf`. -/
def sampleHandle : BlockFileV1 :=
  { version := 1, fileName := "a.bf", blockSize := 2, file := ⟨"a.bf", 9⟩ }

/-- The store with no file at all. -/
def emptyFS : FS := fun _ => none

/-- An environment like a directory on an ext4 volume with 4 KiB blocks: a
file can be created under any non-empty name without a directory separator,
and can grow to `2^44 - 4096` bytes. -/
def sampleEnv : Env :=
  { creatable := fun p => !p.data.isEmpty && !p.data.contains '/',
    maxFileSize := 17592186040320 }

/-! ## Lemmas on the storage model -/

theorem FS.set_same (fs : FS) (p : String) (c : List Byte) : (fs.set p c) p = some c := by
  simp [FS.set]

theorem FS.set_other (fs : FS) (p q : String) (c : List Byte) (h : q ≠ p) :
    (fs.set p c) q = fs q := by
  simp [FS.set, h]

theorem pwrite_length (c buf : List Byte) (off : Nat) :
    (pwrite c buf off).length = max c.length (off + buf.length) := by
  simp only [pwrite, List.length_append, List.length_take, List.length_drop,
    List.length_replicate]
  omega

theorem pread_pwrite (c buf : List Byte) (off n : Nat) (hn : n ≤ buf.length) :
    pread (pwrite c buf off) n off = buf.take n := by
  have hlen : ((c ++ List.replicate (off - c.length) (0 : Byte)).take off).length = off := by
    simp only [List.length_take, List.length_append, List.length_replicate]
    omega
  simp only [pread, pwrite, List.append_assoc]
  rw [List.drop_append_of_le_length (by omega), List.drop_of_length_le (by omega),
    List.nil_append, List.take_append_of_le_length hn]

theorem take_pwrite (c buf : List Byte) (off k : Nat) (hk : k ≤ off) (hc : k ≤ c.length) :
    (pwrite c buf off).take k = c.take k := by
  simp only [pwrite, List.append_assoc]
  rw [List.take_append_of_le_length (by
    simp only [List.length_take, List.length_append, List.length_replicate]; omega)]
  rw [List.take_take, Nat.min_eq_left hk, List.take_append_of_le_length hc]

theorem toInt64_of_le (u : Nat) (h : u ≤ maxInt64) : toInt64 u = (u : Int) := by
  have : u < 2 ^ 63 := by unfold maxInt64 at h; omega
  unfold toInt64
  rw [if_pos this]

/-- Without overflow the block offset is `9 + blkId * blockSize`. -/
theorem blockPos_eq (bf : BlockFileV1) (i : Nat)
    (h : 9 + i * bf.blockSize ≤ maxInt64) :
    bf.blockPos i = ((9 + i * bf.blockSize : Nat) : Int) := by
  have h1 : (HEADER_SIZE_V1 + i * bf.blockSize) % 2 ^ 64 = 9 + i * bf.blockSize := by
    have : HEADER_SIZE_V1 = 9 := rfl
    rw [this]
    apply Nat.mod_eq_of_lt
    unfold maxInt64 at h
    omega
  rw [BlockFileV1.blockPos, h1, toInt64_of_le _ h]

/-! ## Lemmas on block reads and writes -/

/-- A non-empty buffer that fits the offset range and the file size limit is
written whole. -/
theorem WriteBlock_fits (bf : BlockFileV1) (env : Env) (fs : FS) (c blk : List Byte) (i : Nat)
    (hres : fs bf.file.name = some c)
    (hne : (bf.writeBuffer blk).length ≠ 0)
    (hoff : 9 + i * bf.blockSize + (bf.writeBuffer blk).length ≤ maxInt64)
    (hfit : 9 + i * bf.blockSize + (bf.writeBuffer blk).length ≤ env.maxFileSize) :
    bf.WriteBlock env fs blk i =
      (((bf.writeBuffer blk).length, none),
        fs.set bf.file.name (pwrite c (bf.writeBuffer blk) (9 + i * bf.blockSize))) := by
  have hpos := blockPos_eq bf i (by omega)
  have h0 : ¬ (((9 + i * bf.blockSize : Nat) : Int) < 0) := by omega
  have h1 : ¬ (((9 + i * bf.blockSize : Nat) : Int).toNat + (bf.writeBuffer blk).length
      > maxInt64) := by
    rw [Int.toNat_ofNat]; omega
  have h2 : ¬ (((9 + i * bf.blockSize : Nat) : Int).toNat + (bf.writeBuffer blk).length
      > env.maxFileSize) := by
    rw [Int.toNat_ofNat]; omega
  simp only [BlockFileV1.WriteBlock, File.WriteAt, hres, hpos]
  rw [if_neg h0, if_neg hne, if_neg h1, if_neg h2, Int.toNat_ofNat]
  simp only [ne_eq, not_true_eq_false, if_false]

/-- A successful write of a non-empty buffer at a non-overflowing offset fitted
the offset range and the file size limit. -/
theorem WriteBlock_success_fits (bf : BlockFileV1) (env : Env) (fs : FS) (c blk : List Byte)
    (i : Nat)
    (hres : fs bf.file.name = some c)
    (hne : (bf.writeBuffer blk).length ≠ 0)
    (hpos : 9 + i * bf.blockSize ≤ maxInt64)
    (hok : (bf.WriteBlock env fs blk i).1.2 = none) :
    9 + i * bf.blockSize + (bf.writeBuffer blk).length ≤ maxInt64 ∧
      9 + i * bf.blockSize + (bf.writeBuffer blk).length ≤ env.maxFileSize := by
  have hp := blockPos_eq bf i hpos
  have h0 : ¬ (((9 + i * bf.blockSize : Nat) : Int) < 0) := by omega
  simp only [BlockFileV1.WriteBlock, File.WriteAt, hres, hp] at hok
  rw [if_neg h0, if_neg hne, Int.toNat_ofNat] at hok
  by_cases h1 : 9 + i * bf.blockSize + (bf.writeBuffer blk).length > maxInt64
  · rw [if_pos h1] at hok
    simp at hok
  · rw [if_neg h1] at hok
    by_cases h2 : 9 + i * bf.blockSize + (bf.writeBuffer blk).length > env.maxFileSize
    · rw [if_pos h2] at hok
      split_ifs at hok
    · exact ⟨by omega, by omega⟩

/-- The store after `WriteBlock` at a non-overflowing offset: the old one, or
the old one with a part of the buffer written at the offset of the block. -/
theorem WriteBlock_store (bf : BlockFileV1) (env : Env) (fs : FS) (c blk : List Byte) (i : Nat)
    (hres : fs bf.file.name = some c)
    (hpos : 9 + i * bf.blockSize ≤ maxInt64) :
    (bf.WriteBlock env fs blk i).2 = fs ∨
      ∃ buf1 : List Byte, buf1.length ≤ (bf.writeBuffer blk).length ∧
        (bf.WriteBlock env fs blk i).2 =
          fs.set bf.file.name (pwrite c buf1 (9 + i * bf.blockSize)) := by
  have hp := blockPos_eq bf i hpos
  have h0 : ¬ (((9 + i * bf.blockSize : Nat) : Int) < 0) := by omega
  simp only [BlockFileV1.WriteBlock, File.WriteAt, hres, hp]
  rw [if_neg h0, Int.toNat_ofNat]
  by_cases hne : (bf.writeBuffer blk).length = 0
  · rw [if_pos hne]
    left
    simp only [hne, ne_eq, not_true_eq_false, if_false]
  · rw [if_neg hne]
    by_cases h1 : 9 + i * bf.blockSize + (bf.writeBuffer blk).length > maxInt64
    · rw [if_pos h1]
      exact Or.inl rfl
    · rw [if_neg h1]
      by_cases h2 : 9 + i * bf.blockSize + (bf.writeBuffer blk).length > env.maxFileSize
      · rw [if_pos h2]
        by_cases h3 : env.maxFileSize ≤ 9 + i * bf.blockSize
        · rw [if_pos h3]
          exact Or.inl rfl
        · rw [if_neg h3]
          refine Or.inr ⟨(bf.writeBuffer blk).take (env.maxFileSize - (9 + i * bf.blockSize)),
            by rw [List.length_take]; exact Nat.min_le_right _ _, ?_⟩
          rfl
      · rw [if_neg h2]
        right
        refine ⟨bf.writeBuffer blk, le_refl _, ?_⟩
        simp only [ne_eq, not_true_eq_false, if_false]

/-- A block lying wholly inside the resource is read as stored. -/
theorem ReadBlock_inside (bf : BlockFileV1) (fs : FS) (c : List Byte) (i : Nat)
    (hres : fs bf.file.name = some c)
    (hpos : 9 + i * bf.blockSize ≤ maxInt64)
    (hin : 9 + i * bf.blockSize + bf.blockSize ≤ c.length) :
    bf.ReadBlock fs i = .ok (pread c bf.blockSize (9 + i * bf.blockSize)) := by
  have hp := blockPos_eq bf i hpos
  have h0 : ¬ (((9 + i * bf.blockSize : Nat) : Int) < 0) := by omega
  have hlen : (pread c bf.blockSize (9 + i * bf.blockSize)).length = bf.blockSize := by
    simp only [pread, List.length_take, List.length_drop]; omega
  simp only [BlockFileV1.ReadBlock, File.ReadAt, hres, hp]
  rw [if_neg h0, Int.toNat_ofNat]
  simp [hlen]

/-- Reading block `i` right after a write of a buffer of at least `blockSize`
bytes at block `i` yields the first `blockSize` bytes of that buffer. -/
theorem ReadBlock_after_write (bf : BlockFileV1) (fs : FS) (c buf : List Byte) (i : Nat)
    (hpos : 9 + i * bf.blockSize ≤ maxInt64)
    (hlen : bf.blockSize ≤ buf.length) :
    bf.ReadBlock (fs.set bf.file.name (pwrite c buf (9 + i * bf.blockSize))) i =
      .ok (buf.take bf.blockSize) := by
  rw [ReadBlock_inside bf _ _ i (FS.set_same _ _ _) hpos
    (by rw [pwrite_length]; omega), pread_pwrite _ _ _ _ hlen]

/-- A successful write of a buffer of at least `blockSize` bytes returns the
length of the buffer, and the block then reads as its first `blockSize`
bytes. -/
theorem WriteBlock_then_ReadBlock (bf : BlockFileV1) (env : Env) (fs : FS) (c blk : List Byte)
    (i : Nat)
    (hres : fs bf.file.name = some c)
    (hne : (bf.writeBuffer blk).length ≠ 0)
    (hpos : 9 + i * bf.blockSize ≤ maxInt64)
    (hge : bf.blockSize ≤ (bf.writeBuffer blk).length)
    (hok : (bf.WriteBlock env fs blk i).1.2 = none) :
    (bf.WriteBlock env fs blk i).1 = ((bf.writeBuffer blk).length, none) ∧
      bf.ReadBlock (bf.WriteBlock env fs blk i).2 i =
        .ok ((bf.writeBuffer blk).take bf.blockSize) := by
  obtain ⟨h1, h2⟩ := WriteBlock_success_fits bf env fs c blk i hres hne hpos hok
  rw [WriteBlock_fits bf env fs c blk i hres hne h1 h2]
  exact ⟨rfl, ReadBlock_after_write bf fs c _ i hpos hge⟩

theorem writeBuffer_exact (bf : BlockFileV1) (d : List Byte)
    (hb32 : bf.blockSize < 2 ^ 32) (hd : d.length = bf.blockSize) :
    bf.writeBuffer d = d := by
  have : d.length % 2 ^ 32 = bf.blockSize := by rw [hd]; exact Nat.mod_eq_of_lt hb32
  unfold BlockFileV1.writeBuffer
  simp only [this, ne_eq, not_true_eq_false, if_false]

theorem writeBuffer_short (bf : BlockFileV1) (d : List Byte)
    (hb32 : bf.blockSize < 2 ^ 32) (hd : d.length < bf.blockSize) :
    bf.writeBuffer d = d ++ List.replicate (bf.blockSize - d.length) (0 : Byte) := by
  have h1 : d.length % 2 ^ 32 = d.length := Nat.mod_eq_of_lt (by omega)
  have h2 : d.length ≠ bf.blockSize := by omega
  unfold BlockFileV1.writeBuffer
  simp only [h1, ne_eq, h2, not_false_eq_true, if_true, hd]

/-- Whatever the payload length beyond `blockSize`, the buffer written starts
with the first `blockSize` bytes of the payload. -/
theorem writeBuffer_long (bf : BlockFileV1) (d : List Byte)
    (hd : bf.blockSize < d.length) :
    bf.blockSize ≤ (bf.writeBuffer d).length ∧
      (bf.writeBuffer d).take bf.blockSize = d.take bf.blockSize := by
  unfold BlockFileV1.writeBuffer
  simp only []
  split_ifs with h1 h2
  · constructor
    · simp only [List.length_append]; omega
    · rw [List.take_append_of_le_length (by omega)]
  · constructor
    · simp only [List.length_take]; omega
    · rw [List.take_take, Nat.min_self]
  · exact ⟨by omega, rfl⟩

/-! ## Lemmas on the header -/

theorem FS.set_set (fs : FS) (p : String) (a b : List Byte) :
    (fs.set p a).set p b = fs.set p b := by
  funext q
  by_cases h : q = p <;> simp [FS.set, h]

theorem pwrite_at_end (c buf : List Byte) : pwrite c buf c.length = c ++ buf := by
  simp [pwrite]

theorem readUint32_putUint32 (v : Nat) (hv : v < 2 ^ 32) (rest : List Byte) :
    readUint32 (putUint32 v ++ rest) = .ok (v, rest) := by
  simp only [putUint32, byte, readUint32, List.cons_append, List.nil_append]
  congr 2
  norm_num at hv ⊢
  omega

/-- The nine header bytes of a revision-1 container of block size `b`. -/
theorem header_bytes (b : Nat) :
    putUint32 SIGNATURE ++ [byte V1] ++ putUint32 b =
      [0xB1, 0x0C, 0xF1, 0x1E, 0x01,
        byte (b / 2 ^ 24), byte (b / 2 ^ 16), byte (b / 2 ^ 8), byte b] := by
  have h : putUint32 SIGNATURE ++ [byte V1] = [0xB1, 0x0C, 0xF1, 0x1E, 0x01] := by decide
  rw [h]
  rfl

/-- A sequential write at the end of an existing file appends, when the
result fits the file size limit. -/
theorem File.Write_append (env : Env) (fs : FS) (p : String) (c b : List Byte)
    (hres : fs p = some c) (hb : b.length ≠ 0) (hfit : c.length + b.length ≤ maxInt64)
    (hlim : c.length + b.length ≤ env.maxFileSize) :
    File.Write ⟨p, c.length⟩ env fs b =
      ((b.length, none), ⟨p, c.length + b.length⟩, fs.set p (c ++ b)) := by
  have h1 : ¬ (c.length + b.length > maxInt64) := by omega
  have h2 : ¬ (c.length + b.length > env.maxFileSize) := by omega
  simp only [File.Write, hres]
  rw [if_neg hb, if_neg h1, if_neg h2, pwrite_at_end]

/-- A sequential write at the end of an existing file fails when the result
would pass the file size limit. -/
theorem File.Write_too_large (env : Env) (fs : FS) (p : String) (c b : List Byte)
    (hres : fs p = some c) (hb : b.length ≠ 0) (hfit : c.length + b.length ≤ maxInt64)
    (hlim : env.maxFileSize < c.length + b.length) :
    ∃ n f fs1, File.Write ⟨p, c.length⟩ env fs b = ((n, some .fileTooLarge), f, fs1) := by
  have h1 : ¬ (c.length + b.length > maxInt64) := by omega
  have h2 : c.length + b.length > env.maxFileSize := hlim
  simp only [File.Write, hres]
  rw [if_neg hb, if_neg h1, if_pos h2]
  split_ifs
  · exact ⟨_, _, _, rfl⟩
  · exact ⟨_, _, _, rfl⟩

/-- Creation on an absent path with a non-zero block size succeeds and leaves
exactly the header, when the environment lets the path be created and the
file system accepts a file of nine bytes. -/
theorem NewBlockFileV1_fresh (env : Env) (fs : FS) (fname : String) (b : Nat)
    (hnone : fs fname = none) (hb : b ≠ 0)
    (hcr : env.creatable fname = true) (hlim : 9 ≤ env.maxFileSize) :
    NewBlockFileV1 env fs fname b =
      (.ok { version := 1, fileName := fname, blockSize := b, file := ⟨fname, 9⟩ },
        fs.set fname (putUint32 SIGNATURE ++ [byte V1] ++ putUint32 b)) := by
  have hs : (putUint32 SIGNATURE).length = 4 := rfl
  have hl : (putUint32 b).length = 4 := rfl
  have w1 := File.Write_append env (fs.set fname []) fname [] (putUint32 SIGNATURE)
    (FS.set_same _ _ _) (by decide) (by decide)
    (by rw [hs, List.length_nil]; omega)
  have w2 := File.Write_append env (fs.set fname (putUint32 SIGNATURE)) fname
    (putUint32 SIGNATURE) [byte V1] (FS.set_same _ _ _) (by decide) (by decide)
    (by rw [hs, List.length_singleton]; omega)
  have w3 := File.Write_append env (fs.set fname (putUint32 SIGNATURE ++ [byte V1])) fname
    (putUint32 SIGNATURE ++ [byte V1]) (putUint32 b) (FS.set_same _ _ _)
    (by simp [putUint32]) (by simp [putUint32, maxInt64])
    (by rw [List.length_append, hs, hl, List.length_singleton]; omega)
  simp only [FS.set_set, List.nil_append, List.length_nil, Nat.zero_add, List.length_append,
    List.length_singleton, hs, hl] at w1 w2 w3
  simp only [NewBlockFileV1, osCreateExcl, hnone, if_neg hb, hcr, if_true]
  rw [w1]
  simp only []
  rw [w2]
  simp only [ne_eq, not_true_eq_false, if_false]
  rw [w3]

/-- Creation on an absent path with a non-zero block size returns an error
when the environment refuses the path or a file of nine bytes. -/
theorem NewBlockFileV1_refused (env : Env) (fs : FS) (fname : String) (b : Nat)
    (hnone : fs fname = none) (hb : b ≠ 0)
    (hno : ¬ (env.creatable fname = true ∧ 9 ≤ env.maxFileSize)) :
    ∃ e, (NewBlockFileV1 env fs fname b).1 = .err e := by
  have hs : (putUint32 SIGNATURE).length = 4 := rfl
  have hl : (putUint32 b).length = 4 := rfl
  by_cases hcr : env.creatable fname = true
  · have hlim : env.maxFileSize < 9 := by
      by_contra h
      exact hno ⟨hcr, by omega⟩
    simp only [NewBlockFileV1, osCreateExcl, hnone, if_neg hb, hcr, if_true]
    by_cases h4 : 4 ≤ env.maxFileSize
    · have w1 := File.Write_append env (fs.set fname []) fname [] (putUint32 SIGNATURE)
        (FS.set_same _ _ _) (by decide) (by decide)
        (by rw [hs, List.length_nil]; omega)
      simp only [FS.set_set, List.nil_append, List.length_nil, Nat.zero_add, hs] at w1
      rw [w1]
      simp only []
      by_cases h5 : 5 ≤ env.maxFileSize
      · have w2 := File.Write_append env (fs.set fname (putUint32 SIGNATURE)) fname
          (putUint32 SIGNATURE) [byte V1] (FS.set_same _ _ _) (by decide) (by decide)
          (by rw [hs, List.length_singleton]; omega)
        simp only [FS.set_set, List.length_singleton, hs] at w2
        rw [w2]
        simp only [ne_eq, not_true_eq_false, if_false]
        obtain ⟨n, f, fs1, w3⟩ := File.Write_too_large env
          (fs.set fname (putUint32 SIGNATURE ++ [byte V1])) fname
          (putUint32 SIGNATURE ++ [byte V1]) (putUint32 b) (FS.set_same _ _ _)
          (by simp [putUint32]) (by simp [putUint32, maxInt64])
          (by rw [List.length_append, hs, hl, List.length_singleton]; omega)
        simp only [List.length_append, List.length_singleton, hs] at w3
        rw [w3]
        exact ⟨_, rfl⟩
      · obtain ⟨n, f, fs1, w2⟩ := File.Write_too_large env
          (fs.set fname (putUint32 SIGNATURE)) fname
          (putUint32 SIGNATURE) [byte V1] (FS.set_same _ _ _) (by decide) (by decide)
          (by rw [hs, List.length_singleton]; omega)
        simp only [hs] at w2
        rw [w2]
        exact ⟨_, rfl⟩
    · obtain ⟨n, f, fs1, w1⟩ := File.Write_too_large env (fs.set fname []) fname []
        (putUint32 SIGNATURE) (FS.set_same _ _ _) (by decide) (by decide)
        (by rw [hs, List.length_nil]; omega)
      simp only [List.length_nil] at w1
      rw [w1]
      exact ⟨_, rfl⟩
  · simp only [NewBlockFileV1, osCreateExcl, hnone, if_neg hb, hcr]
    exact ⟨_, rfl⟩

/-- A creation that succeeded on an absent path was admitted by the
environment, so it returned the handle and left the header. -/
theorem NewBlockFileV1_ok (env : Env) (fs : FS) (fname : String) (b : Nat) (h0 : BlockFileV1)
    (hnone : fs fname = none) (hb : b ≠ 0)
    (hok : (NewBlockFileV1 env fs fname b).1 = .ok h0) :
    NewBlockFileV1 env fs fname b =
      (.ok { version := 1, fileName := fname, blockSize := b, file := ⟨fname, 9⟩ },
        fs.set fname (putUint32 SIGNATURE ++ [byte V1] ++ putUint32 b)) := by
  by_cases hadm : env.creatable fname = true ∧ 9 ≤ env.maxFileSize
  · exact NewBlockFileV1_fresh env fs fname b hnone hb hadm.1 hadm.2
  · obtain ⟨e, he⟩ := NewBlockFileV1_refused env fs fname b hnone hb hadm
    rw [he] at hok
    cases hok

/-- A sequential read from the start of a file holding at least `n` bytes
fills the buffer. -/
theorem File.Read_start (fs : FS) (p : String) (c : List Byte) (n : Nat)
    (hres : fs p = some c) (hn : n ≤ c.length) (hn0 : n ≠ 0) :
    File.Read ⟨p, 0⟩ fs n = ((n, none), c.take n, ⟨p, n⟩) := by
  have hlen : (pread c n 0).length = n := by
    simp only [pread, List.drop_zero, List.length_take]; omega
  have hno : ¬ (n ≠ 0 ∧ (pread c n 0).length = 0) := by rw [hlen]; tauto
  simp only [File.Read, hres]
  rw [if_neg hno, hlen]
  simp [pread]

/-- Opening with the revision-1 engine a file that starts with a revision-1
header of block size `b`. -/
theorem OpenBlockFileV1_header (fs : FS) (p : String) (b : Nat) (rest : List Byte)
    (hb32 : b < 2 ^ 32)
    (hres : fs p = some (putUint32 SIGNATURE ++ [byte V1] ++ putUint32 b ++ rest)) :
    OpenBlockFileV1 fs p =
      .ok { version := 1, fileName := p, blockSize := b, file := ⟨p, 9⟩ } := by
  have hr := File.Read_start fs p _ HEADER_SIZE_V1 hres
    (by simp [putUint32, HEADER_SIZE_V1, HEADER_SIZE_BASE]) (by decide)
  have htake : (putUint32 SIGNATURE ++ [byte V1] ++ putUint32 b ++ rest).take HEADER_SIZE_V1
      = putUint32 SIGNATURE ++ ([byte V1] ++ (putUint32 b ++ [])) := by
    simp [putUint32, HEADER_SIZE_V1, HEADER_SIZE_BASE]
  rw [htake] at hr
  have h9 : HEADER_SIZE_V1 % 2 ^ 64 = HEADER_SIZE_V1 := by decide
  have hrb : readByte ([byte V1] ++ (putUint32 b ++ [])) = .ok (V1, putUint32 b ++ []) := rfl
  simp only [OpenBlockFileV1, osOpen, hres, hr, h9, ne_eq, not_true_eq_false, if_false,
    readUint32_putUint32 SIGNATURE (by decide), hrb, readUint32_putUint32 b hb32]
  rfl

/-- Opening through the dispatcher a file that starts with a revision-1
header of block size `b`. -/
theorem OpenBlockFile_header (fs : FS) (p : String) (b : Nat) (rest : List Byte)
    (hb32 : b < 2 ^ 32)
    (hres : fs p = some (putUint32 SIGNATURE ++ [byte V1] ++ putUint32 b ++ rest)) :
    OpenBlockFile fs p =
      .ok { version := 1, fileName := p, blockSize := b, file := ⟨p, 9⟩ } := by
  have hr := File.Read_start fs p _ HEADER_SIZE_BASE hres
    (by simp [putUint32, HEADER_SIZE_BASE]) (by decide)
  have htake : (putUint32 SIGNATURE ++ [byte V1] ++ putUint32 b ++ rest).take HEADER_SIZE_BASE
      = putUint32 SIGNATURE ++ [byte V1] := by
    simp [putUint32, HEADER_SIZE_BASE]
  rw [htake] at hr
  have h5 : HEADER_SIZE_BASE % 2 ^ 64 = HEADER_SIZE_BASE := by decide
  have hrb : readByte [byte V1] = .ok (V1, []) := rfl
  have hsig := readUint32_putUint32 SIGNATURE (by decide) [byte V1]
  have hv : ¬ (V1 ≠ 1 ∧ V1 ≠ 2 ∧ V1 ≠ 3) := by decide
  simp only [OpenBlockFile, osOpen, hres, hr, h5, ne_eq, not_true_eq_false, if_false,
    hsig, hrb]
  rw [if_neg hv, if_pos trivial]
  exact OpenBlockFileV1_header fs p b rest hb32 hres

/-! ## Round trips -/

/-- C1 as stated fails: the environment can refuse a write inside the signed
64-bit range.  On a file system whose files stop at `2^44 - 4096` bytes, with
block size 2, index `2^61` and a two-byte payload, `9 + i*b + b ≤ 2^63 - 1`
holds and `WriteBlock` returns 0 with the file-too-large error, leaving the
container as it was. -/
theorem write_past_size_limit_counterexample :
    sampleFS sampleHandle.file.name = some sampleHeader ∧
      0 < sampleHandle.blockSize ∧
      9 + 2 ^ 61 * sampleHandle.blockSize + sampleHandle.blockSize ≤ 2 ^ 63 - 1 ∧
      ([7, 9] : List Byte).length = sampleHandle.blockSize ∧
      (sampleHandle.WriteBlock sampleEnv sampleFS [7, 9] (2 ^ 61)).1
        = (0, some (.os .fileTooLarge)) ∧
      (sampleHandle.WriteBlock sampleEnv sampleFS [7, 9] (2 ^ 61)).2 sampleHandle.file.name
        = some sampleHeader := by
  decide

/-- C1, amended: on a handle with block size `b > 0` whose resource exists,
for an index `i` with `9 + i*b + b ≤ 2^63 - 1` and a payload `d` of exactly
`b` bytes: `WriteBlock d i` succeeds and returns `b` when `9 + i*b + b` is
also within the largest file size the file system accepts; and whenever
`WriteBlock d i` succeeds it returns `b` and the following `ReadBlock i`
succeeds and returns exactly `d`. -/
theorem write_then_read_roundtrip (bf : BlockFileV1) (env : Env) (fs : FS) (c d : List Byte)
    (i : Nat)
    (hres : fs bf.file.name = some c)
    (hb : 0 < bf.blockSize) (hb32 : bf.blockSize < 2 ^ 32)
    (hi : 9 + i * bf.blockSize + bf.blockSize ≤ 2 ^ 63 - 1)
    (hd : d.length = bf.blockSize) :
    (9 + i * bf.blockSize + bf.blockSize ≤ env.maxFileSize →
        (bf.WriteBlock env fs d i).1 = (bf.blockSize, none)) ∧
      ((bf.WriteBlock env fs d i).1.2 = none →
        (bf.WriteBlock env fs d i).1 = (bf.blockSize, none) ∧
          bf.ReadBlock (bf.WriteBlock env fs d i).2 i = .ok d) := by
  have hbuf := writeBuffer_exact bf d hb32 hd
  have hlen : (bf.writeBuffer d).length = bf.blockSize := by rw [hbuf, hd]
  constructor
  · intro hfit
    rw [WriteBlock_fits bf env fs c d i hres (by omega)
      (by rw [hlen]; unfold maxInt64; omega) (by rw [hlen]; exact hfit), hlen]
  · intro hok
    obtain ⟨h1, h2⟩ := WriteBlock_then_ReadBlock bf env fs c d i hres (by omega)
      (by unfold maxInt64; omega) (by omega) hok
    rw [hlen] at h1
    rw [hbuf, ← hd, List.take_length] at h2
    exact ⟨h1, h2⟩

/-- Instance of the amended C1: block 1 of the sample container. -/
theorem write_then_read_roundtrip_witness :
    (sampleHandle.WriteBlock sampleEnv sampleFS [7, 9] 1).1 = (2, none) ∧
      sampleHandle.ReadBlock (sampleHandle.WriteBlock sampleEnv sampleFS [7, 9] 1).2 1
        = .ok [7, 9] :=
  (write_then_read_roundtrip sampleHandle sampleEnv sampleFS sampleHeader [7, 9] 1
    (by decide) (by decide) (by decide) (by decide) (by decide)).2 (by decide)

/-- C2: on a handle with block size `b > 0`, for an index `i` with
`9 + i*b + b ≤ 2^63 - 1` and a payload `d` shorter than `b`: once
`WriteBlock d i` has succeeded, it has returned `b` and `ReadBlock i` returns
`d` followed by `b - len d` zero bytes, `b` bytes in all.  The write does
succeed when `9 + i*b + b` is within the largest file size the file system
accepts. -/
theorem short_payload_zero_padded (bf : BlockFileV1) (env : Env) (fs : FS) (c d : List Byte)
    (i : Nat)
    (hres : fs bf.file.name = some c)
    (hb : 0 < bf.blockSize) (hb32 : bf.blockSize < 2 ^ 32)
    (hi : 9 + i * bf.blockSize + bf.blockSize ≤ 2 ^ 63 - 1)
    (hd : d.length < bf.blockSize) :
    ((bf.WriteBlock env fs d i).1.2 = none →
        (bf.WriteBlock env fs d i).1 = (bf.blockSize, none) ∧
          bf.ReadBlock (bf.WriteBlock env fs d i).2 i =
            .ok (d ++ List.replicate (bf.blockSize - d.length) (0 : Byte))) ∧
      (d ++ List.replicate (bf.blockSize - d.length) (0 : Byte)).length = bf.blockSize ∧
      (9 + i * bf.blockSize + bf.blockSize ≤ env.maxFileSize →
        (bf.WriteBlock env fs d i).1 = (bf.blockSize, none)) := by
  have hbuf := writeBuffer_short bf d hb32 hd
  have hlen0 : (d ++ List.replicate (bf.blockSize - d.length) (0 : Byte)).length
      = bf.blockSize := by
    simp only [List.length_append, List.length_replicate]; omega
  have hlen : (bf.writeBuffer d).length = bf.blockSize := by rw [hbuf, hlen0]
  refine ⟨?_, hlen0, ?_⟩
  · intro hok
    obtain ⟨h1, h2⟩ := WriteBlock_then_ReadBlock bf env fs c d i hres (by omega)
      (by unfold maxInt64; omega) (by omega) hok
    rw [hlen] at h1
    rw [hbuf, List.take_of_length_le (le_of_eq hlen0)] at h2
    exact ⟨h1, h2⟩
  · intro hfit
    rw [WriteBlock_fits bf env fs c d i hres (by omega)
      (by rw [hlen]; unfold maxInt64; omega) (by rw [hlen]; exact hfit), hlen]

/-- Instance of C2: a one-byte payload in a two-byte block. -/
theorem short_payload_zero_padded_witness :
    (sampleHandle.WriteBlock sampleEnv sampleFS [7] 1).1 = (2, none) ∧
      sampleHandle.ReadBlock (sampleHandle.WriteBlock sampleEnv sampleFS [7] 1).2 1
        = .ok [7, 0] :=
  (short_payload_zero_padded sampleHandle sampleEnv sampleFS sampleHeader [7] 1
    (by decide) (by decide) (by decide) (by decide) (by decide)).1 (by decide)

/-- C3: on a handle with block size `b > 0`, for an index `i` with
`9 + i*b + b ≤ 2^63 - 1` and a payload `d` longer than `b`: once
`WriteBlock d i` has succeeded, `ReadBlock i` returns exactly the first `b`
bytes of `d`.  The write does succeed, returning `b`, when `d` has fewer than
`2^32` bytes and `9 + i*b + b` is within the largest file size the file
system accepts. -/
theorem long_payload_truncated (bf : BlockFileV1) (env : Env) (fs : FS) (c d : List Byte)
    (i : Nat)
    (hres : fs bf.file.name = some c)
    (hb : 0 < bf.blockSize)
    (hi : 9 + i * bf.blockSize + bf.blockSize ≤ 2 ^ 63 - 1)
    (hd : bf.blockSize < d.length) :
    ((bf.WriteBlock env fs d i).1.2 = none →
        bf.ReadBlock (bf.WriteBlock env fs d i).2 i = .ok (d.take bf.blockSize)) ∧
      (d.length < 2 ^ 32 → 9 + i * bf.blockSize + bf.blockSize ≤ env.maxFileSize →
        (bf.WriteBlock env fs d i).1 = (bf.blockSize, none)) := by
  obtain ⟨hge, htake⟩ := writeBuffer_long bf d hd
  have hpos : 9 + i * bf.blockSize ≤ maxInt64 := by unfold maxInt64; omega
  constructor
  · intro hok
    rw [(WriteBlock_then_ReadBlock bf env fs c d i hres (by omega) hpos hge hok).2, htake]
  · intro hlt hfit
    have h1 : d.length % 2 ^ 32 = d.length := Nat.mod_eq_of_lt hlt
    have hbuf : bf.writeBuffer d = d.take bf.blockSize := by
      unfold BlockFileV1.writeBuffer
      simp only [h1]
      rw [if_pos (by omega), if_neg (by omega)]
    have hlen : (bf.writeBuffer d).length = bf.blockSize := by
      rw [hbuf, List.length_take]; omega
    rw [WriteBlock_fits bf env fs c d i hres (by omega)
      (by rw [hlen]; unfold maxInt64; omega) (by rw [hlen]; exact hfit), hlen]

/-- Instance of C3: a three-byte payload in a two-byte block. -/
theorem long_payload_truncated_witness :
    sampleHandle.ReadBlock (sampleHandle.WriteBlock sampleEnv sampleFS [7, 8, 9] 1).2 1
        = .ok [7, 8] ∧
      (sampleHandle.WriteBlock sampleEnv sampleFS [7, 8, 9] 1).1 = (2, none) :=
  ⟨(long_payload_truncated sampleHandle sampleEnv sampleFS sampleHeader [7, 8, 9] 1
      (by decide) (by decide) (by decide) (by decide)).1 (by decide),
    (long_payload_truncated sampleHandle sampleEnv sampleFS sampleHeader [7, 8, 9] 1
      (by decide) (by decide) (by decide) (by decide)).2 (by decide) (by decide)⟩

/-! ## Creation and opening -/

/-- C4: open undoes create.  On an absent path and for a block size `b > 0`,
once `NewBlockFile path V1 b` has succeeded, `OpenBlockFile path` succeeds
with a handle whose `BlockSize` is `b`, `Version` is 1, `HeaderSize` is 9 and
`FileName` is `path`; that block size and revision are the ones decoded from
bytes 5..8 and byte 4 of the stored header.  The creation does succeed when
the environment lets the path be created and accepts a file of nine bytes. -/
theorem open_after_create (env : Env) (fs : FS) (path : String) (b : Nat)
    (hnone : fs path = none) (hb : 0 < b) (hb32 : b < 2 ^ 32) :
    (∀ h0, (NewBlockFile env fs path V1 b).1 = .ok h0 →
        ∃ h hdr, OpenBlockFile (NewBlockFile env fs path V1 b).2 path = .ok h ∧
          h.BlockSize = b ∧ h.Version = 1 ∧ h.HeaderSize = 9 ∧ h.FileName = path ∧
          (NewBlockFile env fs path V1 b).2 path = some hdr ∧
          readByte (hdr.drop 4) = .ok (h.Version, hdr.drop 5) ∧
          readUint32 (hdr.drop 5) = .ok (h.BlockSize, [])) ∧
      (env.creatable path = true → 9 ≤ env.maxFileSize →
        ∃ h0, (NewBlockFile env fs path V1 b).1 = .ok h0) := by
  have hnew : NewBlockFile env fs path V1 b = NewBlockFileV1 env fs path b := by
    simp [NewBlockFile]
  have hstored : (fs.set path (putUint32 SIGNATURE ++ [byte V1] ++ putUint32 b)) path
      = some (putUint32 SIGNATURE ++ [byte V1] ++ putUint32 b ++ []) := by
    rw [FS.set_same, List.append_nil]
  have hopen := OpenBlockFile_header _ path b [] hb32 hstored
  rw [hnew]
  constructor
  · intro h0 hok
    rw [NewBlockFileV1_ok env fs path b h0 hnone (by omega) hok]
    refine ⟨_, _, hopen, rfl, rfl, rfl, rfl, FS.set_same _ _ _, rfl, ?_⟩
    exact readUint32_putUint32 b hb32 []
  · intro hcr hlim
    rw [NewBlockFileV1_fresh env fs path b hnone (by omega) hcr hlim]
    exact ⟨_, rfl⟩

/-- Instance of C4: creating and reopening `a.bf` with block size 64. -/
theorem open_after_create_witness :
    ∃ h hdr, OpenBlockFile (NewBlockFile sampleEnv emptyFS "a.bf" V1 64).2 "a.bf" = .ok h ∧
      h.BlockSize = 64 ∧ h.Version = 1 ∧ h.HeaderSize = 9 ∧ h.FileName = "a.bf" ∧
      (NewBlockFile sampleEnv emptyFS "a.bf" V1 64).2 "a.bf" = some hdr ∧
      readByte (hdr.drop 4) = .ok (h.Version, hdr.drop 5) ∧
      readUint32 (hdr.drop 5) = .ok (h.BlockSize, []) :=
  (open_after_create sampleEnv emptyFS "a.bf" 64 rfl (by decide) (by decide)).1
    { version := 1, fileName := "a.bf", blockSize := 64, file := ⟨"a.bf", 9⟩ } (by decide)

/-- C5 as stated fails: an absent path need not be one the operating system
lets be created.  In a directory without a subdirectory `nodir`, the paths
`""` and `"nodir/a.bf"` do not exist, and `NewBlockFile` returns the error of
the failed `os.OpenFile` and creates nothing. -/
theorem create_refused_path_counterexample :
    emptyFS "" = none ∧
      (NewBlockFile sampleEnv emptyFS "" V1 64).1 = .err (.createFailed .cannotCreate) ∧
      (NewBlockFile sampleEnv emptyFS "" V1 64).2 "" = none ∧
      emptyFS "nodir/a.bf" = none ∧
      (NewBlockFile sampleEnv emptyFS "nodir/a.bf" V1 64).1
        = .err (.createFailed .cannotCreate) ∧
      (NewBlockFile sampleEnv emptyFS "nodir/a.bf" V1 64).2 "nodir/a.bf" = none := by
  decide

/-- C5, amended: on an absent path and for a block size `b > 0`,
`NewBlockFile path V1 b` returns a handle and no error when the environment
lets the path be created and accepts a file of nine bytes; and whenever it
returns a handle, the file it leaves is exactly nine bytes: `B1 0C F1 1E`,
then `01`, then `b` in four bytes, most significant first. -/
theorem create_writes_header (env : Env) (fs : FS) (path : String) (b : Nat)
    (hnone : fs path = none) (hb : 0 < b) :
    (env.creatable path = true → 9 ≤ env.maxFileSize →
        (NewBlockFile env fs path V1 b).1 =
          .ok { version := 1, fileName := path, blockSize := b, file := ⟨path, 9⟩ }) ∧
      (∀ h0, (NewBlockFile env fs path V1 b).1 = .ok h0 →
        h0 = { version := 1, fileName := path, blockSize := b, file := ⟨path, 9⟩ } ∧
          (NewBlockFile env fs path V1 b).2 path =
            some [0xB1, 0x0C, 0xF1, 0x1E, 0x01,
              byte (b / 2 ^ 24), byte (b / 2 ^ 16), byte (b / 2 ^ 8), byte b]) := by
  have hnew : NewBlockFile env fs path V1 b = NewBlockFileV1 env fs path b := by
    simp [NewBlockFile]
  rw [hnew]
  constructor
  · intro hcr hlim
    rw [NewBlockFileV1_fresh env fs path b hnone (by omega) hcr hlim]
  · intro h0 hok
    have hfull := NewBlockFileV1_ok env fs path b h0 hnone (by omega) hok
    rw [hfull] at hok ⊢
    refine ⟨?_, ?_⟩
    · injection hok with h
      exact h.symm
    · show (fs.set path (putUint32 SIGNATURE ++ [byte V1] ++ putUint32 b)) path = _
      rw [FS.set_same, header_bytes]

/-- Instance of the amended C5: the test's block size 64 gives
`… 00 00 00 40`. -/
theorem create_writes_header_witness :
    (NewBlockFile sampleEnv emptyFS "doesntexist.bf" V1 64).1 =
        .ok { version := 1, fileName := "doesntexist.bf", blockSize := 64,
              file := ⟨"doesntexist.bf", 9⟩ } ∧
      (NewBlockFile sampleEnv emptyFS "doesntexist.bf" V1 64).2 "doesntexist.bf" =
        some [0xB1, 0x0C, 0xF1, 0x1E, 0x01, byte (64 / 2 ^ 24), byte (64 / 2 ^ 16),
          byte (64 / 2 ^ 8), byte 64] :=
  ⟨(create_writes_header sampleEnv emptyFS "doesntexist.bf" 64 rfl (by decide)).1
      (by decide) (by decide),
    ((create_writes_header sampleEnv emptyFS "doesntexist.bf" 64 rfl (by decide)).2
      { version := 1, fileName := "doesntexist.bf", blockSize := 64,
        file := ⟨"doesntexist.bf", 9⟩ } (by decide)).2⟩

/-! ## Block count -/

/-- The value of `NumBlocks` on a resource of at least nine bytes. -/
theorem NumBlocks_of_size (bf : BlockFileV1) (fs : FS) (c : List Byte)
    (hres : fs bf.file.name = some c)
    (hb : 0 < bf.blockSize) (hb32 : bf.blockSize < 2 ^ 32)
    (hs : 9 ≤ c.length) (hmax : c.length ≤ 2 ^ 63 - 1) :
    bf.NumBlocks fs =
      some ((c.length - 9) / bf.blockSize,
        if (c.length - 9) % bf.blockSize ≠ 0 then
          some (.misaligned ((c.length - 9) / bf.blockSize) ((c.length - 9) % bf.blockSize))
        else none) := by
  have h1 : c.length % 2 ^ 64 = c.length := Nat.mod_eq_of_lt (by omega)
  have h2 : bf.blockSize % 2 ^ 64 = bf.blockSize := Nat.mod_eq_of_lt (by omega)
  have h3 : (c.length + 2 ^ 64 - HEADER_SIZE_V1) % 2 ^ 64 = c.length - 9 := by
    have : HEADER_SIZE_V1 = 9 := rfl
    rw [this]
    omega
  have h4 : ¬ bf.blockSize = 0 := by omega
  simp only [BlockFileV1.NumBlocks, File.Stat, hres, h1, h2, h3, if_neg h4]
  split_ifs <;> rfl

/-- C6: on a handle with block size `b > 0` whose resource has size `s ≥ 9`
(a signed 64-bit size), `NumBlocks` returns the count `(s - 9) / b`, together
with an error exactly when `(s - 9) % b ≠ 0`. -/
theorem NumBlocks_floor_count (bf : BlockFileV1) (fs : FS) (c : List Byte)
    (hres : fs bf.file.name = some c)
    (hb : 0 < bf.blockSize) (hb32 : bf.blockSize < 2 ^ 32)
    (hs : 9 ≤ c.length) (hmax : c.length ≤ 2 ^ 63 - 1) :
    ∃ err, bf.NumBlocks fs = some ((c.length - 9) / bf.blockSize, err) ∧
      (err ≠ none ↔ (c.length - 9) % bf.blockSize ≠ 0) := by
  rw [NumBlocks_of_size bf fs c hres hb hb32 hs hmax]
  refine ⟨_, rfl, ?_⟩
  by_cases hrem : (c.length - 9) % bf.blockSize = 0
  · simp [hrem]
  · simp [hrem]

/-- Instances of C6 on the sample handle (block size 2): a resource of 12
bytes holds one block and a trailing byte, so the count 1 comes with an
error; a resource of 13 bytes holds two blocks and no error is returned. -/
theorem NumBlocks_floor_count_witness :
    (∃ err, sampleHandle.NumBlocks (emptyFS.set "a.bf" (sampleHeader ++ [1, 2, 3]))
        = some (1, err) ∧ (err ≠ none ↔ 3 % 2 ≠ 0)) ∧
      (∃ err, sampleHandle.NumBlocks (emptyFS.set "a.bf" (sampleHeader ++ [1, 2, 3, 4]))
        = some (2, err) ∧ (err ≠ none ↔ 4 % 2 ≠ 0)) :=
  ⟨NumBlocks_floor_count sampleHandle (emptyFS.set "a.bf" (sampleHeader ++ [1, 2, 3]))
      (sampleHeader ++ [1, 2, 3]) (by decide) (by decide) (by decide) (by decide) (by decide),
    NumBlocks_floor_count sampleHandle (emptyFS.set "a.bf" (sampleHeader ++ [1, 2, 3, 4]))
      (sampleHeader ++ [1, 2, 3, 4]) (by decide) (by decide) (by decide) (by decide)
      (by decide)⟩

/-- A payload of at most `blockSize` bytes is normalised to `blockSize` bytes. -/
theorem writeBuffer_length_of_le (bf : BlockFileV1) (d : List Byte)
    (hb32 : bf.blockSize < 2 ^ 32) (hd : d.length ≤ bf.blockSize) :
    (bf.writeBuffer d).length = bf.blockSize := by
  rcases Nat.lt_or_eq_of_le hd with h | h
  · rw [writeBuffer_short bf d hb32 h]
    simp only [List.length_append, List.length_replicate]; omega
  · rw [writeBuffer_exact bf d hb32 h, h]

/-- Contiguous writes starting at the end of an aligned resource all succeed
and keep it aligned, when the last block fits the file size limit. -/
theorem writeBlocksFrom_aligned (bf : BlockFileV1) (env : Env)
    (hb : 0 < bf.blockSize) (hb32 : bf.blockSize < 2 ^ 32) :
    ∀ (ds : List (List Byte)) (fs : FS) (c : List Byte) (j : Nat),
      fs bf.file.name = some c → c.length = 9 + j * bf.blockSize →
      (∀ d ∈ ds, d.length ≤ bf.blockSize) →
      9 + (j + ds.length) * bf.blockSize ≤ maxInt64 →
      9 + (j + ds.length) * bf.blockSize ≤ env.maxFileSize →
      ∃ fs2 c2, writeBlocksFrom bf env fs ds j = some fs2 ∧ fs2 bf.file.name = some c2 ∧
        c2.length = 9 + (j + ds.length) * bf.blockSize := by
  intro ds
  induction ds with
  | nil =>
    intro fs c j hres hlen _ _ _
    exact ⟨fs, c, rfl, hres, by simpa using hlen⟩
  | cons d ds ih =>
    intro fs c j hres hlen hds hfit hlim
    have hd : d.length ≤ bf.blockSize := hds d (List.mem_cons_self _ _)
    have hbl := writeBuffer_length_of_le bf d hb32 hd
    have hstep : (j + 1) * bf.blockSize = j * bf.blockSize + bf.blockSize := Nat.succ_mul _ _
    have hidx : j + (d :: ds).length = (j + 1) + ds.length := by
      simp only [List.length_cons]; omega
    have hmono : (j + 1) * bf.blockSize ≤ (j + 1 + ds.length) * bf.blockSize :=
      Nat.mul_le_mul_right _ (by omega)
    rw [hidx] at hfit hlim ⊢
    have hw := WriteBlock_fits bf env fs c d j hres (by rw [hbl]; omega) (by rw [hbl]; omega)
      (by rw [hbl]; omega)
    have hlen1 : (pwrite c (bf.writeBuffer d) (9 + j * bf.blockSize)).length
        = 9 + (j + 1) * bf.blockSize := by
      rw [pwrite_length, hbl, hlen]; omega
    obtain ⟨fs2, c2, h1, h2, h3⟩ := ih _ _ (j + 1) (FS.set_same fs bf.file.name _) hlen1
      (fun x hx => hds x (List.mem_cons_of_mem _ hx)) hfit hlim
    refine ⟨fs2, c2, ?_, h2, h3⟩
    simp only [writeBlocksFrom, hw]
    exact h1

/-- Contiguous writes starting at the end of an aligned resource that have
all succeeded left it aligned. -/
theorem writeBlocksFrom_success (bf : BlockFileV1) (env : Env)
    (hb : 0 < bf.blockSize) (hb32 : bf.blockSize < 2 ^ 32) :
    ∀ (ds : List (List Byte)) (fs fs2 : FS) (c : List Byte) (j : Nat),
      fs bf.file.name = some c → c.length = 9 + j * bf.blockSize →
      (∀ d ∈ ds, d.length ≤ bf.blockSize) →
      9 + (j + ds.length) * bf.blockSize ≤ maxInt64 →
      writeBlocksFrom bf env fs ds j = some fs2 →
      ∃ c2, fs2 bf.file.name = some c2 ∧
        c2.length = 9 + (j + ds.length) * bf.blockSize := by
  intro ds
  induction ds with
  | nil =>
    intro fs fs2 c j hres hlen _ _ hw
    simp only [writeBlocksFrom, Option.some.injEq] at hw
    subst hw
    exact ⟨c, hres, by simpa using hlen⟩
  | cons d ds ih =>
    intro fs fs2 c j hres hlen hds hfit hwr
    have hd : d.length ≤ bf.blockSize := hds d (List.mem_cons_self _ _)
    have hbl := writeBuffer_length_of_le bf d hb32 hd
    have hstep : (j + 1) * bf.blockSize = j * bf.blockSize + bf.blockSize := Nat.succ_mul _ _
    have hidx : j + (d :: ds).length = (j + 1) + ds.length := by
      simp only [List.length_cons]; omega
    have hmono : (j + 1) * bf.blockSize ≤ (j + 1 + ds.length) * bf.blockSize :=
      Nat.mul_le_mul_right _ (by omega)
    rw [hidx] at hfit ⊢
    by_cases hok : (bf.WriteBlock env fs d j).1.2 = none
    · obtain ⟨h1, h2⟩ := WriteBlock_success_fits bf env fs c d j hres (by rw [hbl]; omega)
        (by omega) hok
      have hw := WriteBlock_fits bf env fs c d j hres (by rw [hbl]; omega) h1 h2
      have hlen1 : (pwrite c (bf.writeBuffer d) (9 + j * bf.blockSize)).length
          = 9 + (j + 1) * bf.blockSize := by
        rw [pwrite_length, hbl, hlen]; omega
      simp only [writeBlocksFrom, hw] at hwr
      exact ih _ fs2 _ (j + 1) (FS.set_same fs bf.file.name _) hlen1
        (fun x hx => hds x (List.mem_cons_of_mem _ hx)) hfit hwr
    · exfalso
      simp only [writeBlocksFrom] at hwr
      generalize bf.WriteBlock env fs d j = r at hok hwr
      obtain ⟨⟨n, e⟩, fs1⟩ := r
      cases e with
      | none => exact hok rfl
      | some e => simp at hwr

/-- C7: for a block size `b > 0` and `k` payloads of at most `b` bytes with
`9 + k*b ≤ 2^63 - 1`: once `NewBlockFileV1` has created a fresh container and
`WriteBlock` has succeeded at each of the indices `0, …, k-1` in order,
`NumBlocks` returns `k` with no error.  The creation and the `k` writes do
succeed when the environment lets the path be created and accepts a file of
`9 + k*b` bytes. -/
theorem NumBlocks_after_contiguous_writes (env : Env) (fs : FS) (path : String) (b : Nat)
    (ds : List (List Byte))
    (hnone : fs path = none) (hb : 0 < b) (hb32 : b < 2 ^ 32)
    (hds : ∀ d ∈ ds, d.length ≤ b)
    (hk : 9 + ds.length * b ≤ 2 ^ 63 - 1) :
    (∀ h fs1 fs2, NewBlockFileV1 env fs path b = (.ok h, fs1) →
        writeBlocksFrom h env fs1 ds 0 = some fs2 →
        h.NumBlocks fs2 = some (ds.length, none)) ∧
      (env.creatable path = true → 9 + ds.length * b ≤ env.maxFileSize →
        ∃ h fs1 fs2, NewBlockFileV1 env fs path b = (.ok h, fs1) ∧
          writeBlocksFrom h env fs1 ds 0 = some fs2 ∧
          h.NumBlocks fs2 = some (ds.length, none)) := by
  let h1 : BlockFileV1 := { version := 1, fileName := path, blockSize := b, file := ⟨path, 9⟩ }
  have hcount : ∀ (fs2 : FS) (c2 : List Byte), fs2 h1.file.name = some c2 →
      c2.length = 9 + (0 + ds.length) * h1.blockSize →
      h1.NumBlocks fs2 = some (ds.length, none) := by
    intro fs2 c2 hres2 hlen2
    have hlen2 : c2.length = 9 + ds.length * b := by rw [hlen2, Nat.zero_add]
    have hr : (c2.length - 9) % h1.blockSize = 0 := by
      rw [hlen2, Nat.add_sub_cancel_left]
      exact Nat.mul_mod_left _ _
    have hq : (c2.length - 9) / h1.blockSize = ds.length := by
      rw [hlen2, Nat.add_sub_cancel_left]
      exact Nat.mul_div_cancel _ hb
    rw [NumBlocks_of_size h1 fs2 c2 hres2 hb hb32 (by omega) (by omega), hq, hr]
    rfl
  constructor
  · intro h fs1 fs2 hnew hwr
    have hfull := NewBlockFileV1_ok env fs path b h hnone (by omega) (by rw [hnew])
    rw [hfull] at hnew
    simp only [Prod.mk.injEq, Result.ok.injEq] at hnew
    obtain ⟨hh, hfs1⟩ := hnew
    subst hh hfs1
    obtain ⟨c2, hres2, hlen2⟩ := writeBlocksFrom_success h1 env hb hb32 ds _ fs2
      (putUint32 SIGNATURE ++ [byte V1] ++ putUint32 b) 0
      (FS.set_same _ _ _) (by simp [putUint32]) hds
      (by rw [Nat.zero_add]; exact hk) hwr
    exact hcount fs2 c2 hres2 hlen2
  · intro hcr hlim
    have hcreate := NewBlockFileV1_fresh env fs path b hnone (by omega) hcr (by omega)
    obtain ⟨fs2, c2, hw, hres2, hlen2⟩ := writeBlocksFrom_aligned h1 env hb hb32 ds
      (fs.set path (putUint32 SIGNATURE ++ [byte V1] ++ putUint32 b))
      (putUint32 SIGNATURE ++ [byte V1] ++ putUint32 b) 0
      (FS.set_same _ _ _) (by simp [putUint32]) hds
      (by rw [Nat.zero_add]; exact hk) (by rw [Nat.zero_add]; exact hlim)
    exact ⟨h1, _, fs2, hcreate, hw, hcount fs2 c2 hres2 hlen2⟩

/-- Instance of C7: three blocks of size 2 written to a fresh `a.bf`. -/
theorem NumBlocks_after_contiguous_writes_witness :
    ∃ h fs1 fs2, NewBlockFileV1 sampleEnv emptyFS "a.bf" 2 = (.ok h, fs1) ∧
      writeBlocksFrom h sampleEnv fs1 [[1, 2], [3], []] 0 = some fs2 ∧
      h.NumBlocks fs2 = some (3, none) :=
  (NumBlocks_after_contiguous_writes sampleEnv emptyFS "a.bf" 2 [[1, 2], [3], []]
    rfl (by decide) (by decide) (by decide) (by decide)).2 (by decide) (by decide)

/-! ## The header under block writes -/

/-- C8 as stated fails: on the sample container (block size 2) the index
`2^63 - 4` gives the offset `9 + (2^63 - 4) * 2 = 2^64 + 1`, which wraps to 1,
so the write succeeds and replaces bytes 1 and 2 of the signature. -/
theorem header_rewritten_counterexample :
    sampleFS sampleHandle.file.name = some [0xB1, 0x0C, 0xF1, 0x1E, 0x01, 0, 0, 0, 2] ∧
      (sampleHandle.WriteBlock sampleEnv sampleFS [0xAA, 0xBB] (2 ^ 63 - 4)).1 = (2, none) ∧
      (sampleHandle.WriteBlock sampleEnv sampleFS [0xAA, 0xBB] (2 ^ 63 - 4)).2
          sampleHandle.file.name
        = some [0xB1, 0xAA, 0xBB, 0x1E, 0x01, 0, 0, 0, 2] ∧
      ((sampleHandle.WriteBlock sampleEnv sampleFS [0xAA, 0xBB] (2 ^ 63 - 4)).2
          sampleHandle.file.name).map
          (List.take 9) ≠ (sampleFS sampleHandle.file.name).map (List.take 9) := by
  decide

/-- C8, amended: on a handle whose resource holds at least its nine header
bytes, for every index `i` whose offset `9 + i*b` reduced modulo `2^64` is at
least 9, and for every payload, the first nine bytes of the resource after
`WriteBlock` (whether it returned an error or not) are the ones before it. -/
theorem header_preserved (bf : BlockFileV1) (env : Env) (fs : FS) (c blk : List Byte) (i : Nat)
    (hres : fs bf.file.name = some c) (hs : 9 ≤ c.length)
    (hoff : 9 ≤ (9 + i * bf.blockSize) % 2 ^ 64) :
    ∃ c1, (bf.WriteBlock env fs blk i).2 bf.file.name = some c1 ∧ c1.take 9 = c.take 9 := by
  have h9 : HEADER_SIZE_V1 = 9 := rfl
  simp only [BlockFileV1.WriteBlock, File.WriteAt, hres, BlockFileV1.blockPos, h9]
  by_cases hneg : toInt64 ((9 + i * bf.blockSize) % 2 ^ 64) < 0
  · rw [if_pos hneg]
    exact ⟨c, hres, rfl⟩
  · rw [if_neg hneg]
    by_cases h0 : (bf.writeBuffer blk).length = 0
    · rw [if_pos h0]
      refine ⟨c, ?_, rfl⟩
      simp only [h0, ne_eq, not_true_eq_false, if_false]
      exact hres
    · rw [if_neg h0]
      by_cases hbig : (toInt64 ((9 + i * bf.blockSize) % 2 ^ 64)).toNat
          + (bf.writeBuffer blk).length > maxInt64
      · rw [if_pos hbig]
        exact ⟨c, hres, rfl⟩
      · rw [if_neg hbig]
        have hlt : (9 + i * bf.blockSize) % 2 ^ 64 < 2 ^ 63 := by
          by_contra hge
          apply hneg
          unfold toInt64
          rw [if_neg hge]
          have := Nat.mod_lt (9 + i * bf.blockSize) (show 2 ^ 64 > 0 by decide)
          omega
        have hto : (toInt64 ((9 + i * bf.blockSize) % 2 ^ 64)).toNat
            = (9 + i * bf.blockSize) % 2 ^ 64 := by
          unfold toInt64
          rw [if_pos hlt, Int.toNat_ofNat]
        rw [hto]
        by_cases hlim : (9 + i * bf.blockSize) % 2 ^ 64 + (bf.writeBuffer blk).length
            > env.maxFileSize
        · rw [if_pos hlim]
          by_cases hfull : env.maxFileSize ≤ (9 + i * bf.blockSize) % 2 ^ 64
          · rw [if_pos hfull]
            exact ⟨c, hres, rfl⟩
          · rw [if_neg hfull]
            exact ⟨_, FS.set_same _ _ _, take_pwrite _ _ _ 9 hoff hs⟩
        · rw [if_neg hlim]
          refine ⟨pwrite c (bf.writeBuffer blk) ((9 + i * bf.blockSize) % 2 ^ 64), ?_,
            take_pwrite _ _ _ 9 hoff hs⟩
          simp only [ne_eq, not_true_eq_false, if_false]
          exact FS.set_same _ _ _

/-- Instance of the amended C8: block 1 of the sample container. -/
theorem header_preserved_witness :
    ∃ c1, (sampleHandle.WriteBlock sampleEnv sampleFS [0xAA, 0xBB] 1).2 sampleHandle.file.name
        = some c1 ∧
      c1.take 9 = sampleHeader.take 9 :=
  header_preserved sampleHandle sampleEnv sampleFS sampleHeader [0xAA, 0xBB] 1
    (by decide) (by decide) (by decide)

/-! ## Payload normalisation -/

/-- C9 fails at a payload of `2^32 + 2` bytes on a handle with block size 2:
the length reduced to 32 bits equals the block size, so the payload is handed
to the positioned write as it is and `WriteBlock` returns `2^32 + 2`. -/
theorem writeBuffer_wraps_length :
    (sampleHandle.writeBuffer (List.replicate (2 ^ 32 + 2) (0 : Byte))).length = 2 ^ 32 + 2 ∧
      (sampleHandle.WriteBlock sampleEnv sampleFS (List.replicate (2 ^ 32 + 2) (0 : Byte)) 0).1
        = (2 ^ 32 + 2, none) := by
  have hmod : (List.replicate (2 ^ 32 + 2) (0 : Byte)).length % 2 ^ 32
      = sampleHandle.blockSize := by
    rw [List.length_replicate]
    decide
  have hbuf : sampleHandle.writeBuffer (List.replicate (2 ^ 32 + 2) (0 : Byte))
      = List.replicate (2 ^ 32 + 2) (0 : Byte) := by
    unfold BlockFileV1.writeBuffer
    simp only [hmod, ne_eq, not_true_eq_false, if_false]
  have hlen : (sampleHandle.writeBuffer (List.replicate (2 ^ 32 + 2) (0 : Byte))).length
      = 2 ^ 32 + 2 := by
    rw [hbuf, List.length_replicate]
  refine ⟨hlen, ?_⟩
  rw [WriteBlock_fits sampleHandle sampleEnv sampleFS sampleHeader _ 0 (by decide)
    (by rw [hlen]; decide) (by rw [hlen]; decide) (by rw [hlen]; decide), hlen]

/-! ## Creation over an existing path -/

/-- C10: when `path` already exists, whatever its content and whatever the
block size, `NewBlockFile path V1 b` returns an error and no handle, and the
store - the existing file included - is left exactly as it was. -/
theorem create_existing_fails (env : Env) (fs : FS) (path : String) (b : Nat) (c : List Byte)
    (hex : fs path = some c) :
    NewBlockFile env fs path V1 b =
      (.err (if b = 0 then .blockSizeZero else .createFailed .exist), fs) := by
  have hnew : NewBlockFile env fs path V1 b = NewBlockFileV1 env fs path b := by
    simp [NewBlockFile]
  rw [hnew]
  by_cases hb : b = 0
  · simp [NewBlockFileV1, hb]
  · simp [NewBlockFileV1, hb, osCreateExcl, hex]

/-- Instance of C10: the test's call on an existing, empty `exists.bf`. -/
theorem create_existing_fails_witness :
    NewBlockFile sampleEnv (emptyFS.set "exists.bf" []) "exists.bf" V1 64 =
      (.err (.createFailed .exist), emptyFS.set "exists.bf" []) :=
  create_existing_fails sampleEnv (emptyFS.set "exists.bf" []) "exists.bf" 64 [] (by decide)

/-! ## Rejected creations -/

/-- C11: for every path, existing or not, `NewBlockFile path V1 0` returns the
zero-block-size error and no handle, and the store is exactly what it was: no
file is created or modified, the check coming before the path is opened. -/
theorem create_zero_block_size_fails (env : Env) (fs : FS) (path : String) :
    NewBlockFile env fs path V1 0 = (.err .blockSizeZero, fs) := by
  simp [NewBlockFile, NewBlockFileV1]

/-- C12: version dispatch on creation.  Revision 1 is handed to
`NewBlockFileV1`; revisions 2 and 3 give no handle and the not-implemented
error; every other revision gives no handle and the unsupported-version error,
which differs from every not-implemented error; outside revision 1 the store
is returned unchanged. -/
theorem NewBlockFile_dispatch (env : Env) (fs : FS) (path : String) (ver b : Nat) :
    NewBlockFile env fs path ver b =
        (if ver = 1 then NewBlockFileV1 env fs path b
         else if ver = 2 ∨ ver = 3 then (.err (.notImplemented ver), fs)
         else (.err (.unsupportedVersion ver), fs)) ∧
      ∀ v w : Nat, Error.unsupportedVersion v ≠ Error.notImplemented w := by
  refine ⟨?_, fun v w h => by cases h⟩
  unfold NewBlockFile V1 V2 V3
  by_cases h1 : ver = 1
  · simp [h1]
  · by_cases h2 : ver = 2
    · simp [h2]
    · by_cases h3 : ver = 3
      · simp [h3]
      · simp [h1, h2, h3]

/-! ## Rejected openings -/

/-- What `OpenBlockFile` does on a file of at least five bytes: the checks on
the base header, in the order of the source. -/
theorem OpenBlockFile_base (fs : FS) (p : String) (b0 b1 b2 b3 v : Byte) (rest : List Byte)
    (hres : fs p = some (b0 :: b1 :: b2 :: b3 :: v :: rest)) :
    OpenBlockFile fs p =
      if b0.val * 2 ^ 24 + b1.val * 2 ^ 16 + b2.val * 2 ^ 8 + b3.val ≠ SIGNATURE then
        .err (.signatureMismatch (b0.val * 2 ^ 24 + b1.val * 2 ^ 16 + b2.val * 2 ^ 8 + b3.val))
      else if v.val ≠ 1 ∧ v.val ≠ 2 ∧ v.val ≠ 3 then .err (.unexpectedVersion v.val)
      else if v.val = V1 then OpenBlockFileV1 fs p
      else if v.val = V2 then .err (.notImplemented 2)
      else if v.val = V3 then .err (.notImplemented 3)
      else .err (.unsupportedVersion v.val) := by
  have hr := File.Read_start fs p _ HEADER_SIZE_BASE hres
    (by simp [HEADER_SIZE_BASE]) (by decide)
  have htake : (b0 :: b1 :: b2 :: b3 :: v :: rest).take HEADER_SIZE_BASE
      = [b0, b1, b2, b3, v] := by
    simp [HEADER_SIZE_BASE]
  rw [htake] at hr
  have h5 : HEADER_SIZE_BASE % 2 ^ 64 = HEADER_SIZE_BASE := by decide
  simp only [OpenBlockFile, osOpen, hres, hr, h5, ne_eq, not_true_eq_false, if_false,
    readUint32, readByte]

/-- C13: version dispatch on opening.  On a file of at least five bytes that
starts with the signature `B1 0C F1 1E`, `OpenBlockFile` returns no handle and
the not-implemented error when the revision byte is 2 or 3, and no handle and
the unexpected-version error, a different one, when the revision byte is
outside `{1, 2, 3}`. -/
theorem OpenBlockFile_dispatch (fs : FS) (p : String) (v : Byte) (rest : List Byte)
    (hres : fs p = some (0xB1 :: 0x0C :: 0xF1 :: 0x1E :: v :: rest)) :
    (v.val = 2 ∨ v.val = 3 → OpenBlockFile fs p = .err (.notImplemented v.val)) ∧
      (v.val ≠ 1 ∧ v.val ≠ 2 ∧ v.val ≠ 3 →
        OpenBlockFile fs p = .err (.unexpectedVersion v.val)) ∧
      ∀ a b : Nat, Error.unexpectedVersion a ≠ Error.notImplemented b := by
  have hbase := OpenBlockFile_base fs p _ _ _ _ v rest hres
  have hsig : ¬ ((0xB1 : Byte).val * 2 ^ 24 + (0x0C : Byte).val * 2 ^ 16
      + (0xF1 : Byte).val * 2 ^ 8 + (0x1E : Byte).val ≠ SIGNATURE) := by decide
  rw [if_neg hsig] at hbase
  refine ⟨?_, ?_, fun a b h => by cases h⟩
  · intro h23
    rw [hbase]
    rcases h23 with h | h
    · simp [h, V1, V2]
    · simp [h, V1, V2, V3]
  · intro hout
    rw [hbase, if_pos hout]

/-- Instance of C13: a five-byte file of revision 2 and one of revision 4. -/
theorem OpenBlockFile_dispatch_witness :
    OpenBlockFile (emptyFS.set "v2.bf" [0xB1, 0x0C, 0xF1, 0x1E, 2]) "v2.bf"
        = .err (.notImplemented 2) ∧
      OpenBlockFile (emptyFS.set "v4.bf" [0xB1, 0x0C, 0xF1, 0x1E, 4]) "v4.bf"
        = .err (.unexpectedVersion 4) :=
  ⟨(OpenBlockFile_dispatch (emptyFS.set "v2.bf" [0xB1, 0x0C, 0xF1, 0x1E, 2]) "v2.bf" 2 []
      (by decide)).1 (Or.inl rfl),
    (OpenBlockFile_dispatch (emptyFS.set "v4.bf" [0xB1, 0x0C, 0xF1, 0x1E, 4]) "v4.bf" 4 []
      (by decide)).2.1 ⟨by decide, by decide, by decide⟩⟩

/-- C14: on a file of at least five bytes whose first four bytes, read
big-endian, are not `0xB10CF11E`, `OpenBlockFile` returns the
signature-mismatch error and no handle, whatever the revision byte and the
rest of the file. -/
theorem OpenBlockFile_bad_signature (fs : FS) (p : String) (b0 b1 b2 b3 v : Byte)
    (rest : List Byte)
    (hres : fs p = some (b0 :: b1 :: b2 :: b3 :: v :: rest))
    (hsig : b0.val * 2 ^ 24 + b1.val * 2 ^ 16 + b2.val * 2 ^ 8 + b3.val ≠ 0xB10CF11E) :
    OpenBlockFile fs p =
      .err (.signatureMismatch (b0.val * 2 ^ 24 + b1.val * 2 ^ 16 + b2.val * 2 ^ 8 + b3.val)) := by
  have hne : b0.val * 2 ^ 24 + b1.val * 2 ^ 16 + b2.val * 2 ^ 8 + b3.val ≠ SIGNATURE := hsig
  rw [OpenBlockFile_base fs p b0 b1 b2 b3 v rest hres, if_pos hne]

/-- Instance of C14: a one-bit signature error in front of a valid revision
byte and block size. -/
theorem OpenBlockFile_bad_signature_witness :
    OpenBlockFile (emptyFS.set "bad.bf" [0xB1, 0x0C, 0xF1, 0x1F, 1, 0, 0, 0, 2]) "bad.bf" =
      .err (.signatureMismatch ((0xB1 : Byte).val * 2 ^ 24 + (0x0C : Byte).val * 2 ^ 16
        + (0xF1 : Byte).val * 2 ^ 8 + (0x1F : Byte).val)) :=
  OpenBlockFile_bad_signature (emptyFS.set "bad.bf" [0xB1, 0x0C, 0xF1, 0x1F, 1, 0, 0, 0, 2])
    "bad.bf" 0xB1 0x0C 0xF1 0x1F 1 [0, 0, 0, 2] (by decide) (by decide)

/-- A sequential read from the start of a file shorter than the buffer: end
of file when it is empty, a short count otherwise. -/
theorem File.Read_short (fs : FS) (p : String) (c : List Byte) (n : Nat)
    (hres : fs p = some c) (hn : c.length < n) :
    (c.length = 0 ∧ (File.Read ⟨p, 0⟩ fs n).1 = (0, some .eof)) ∨
      (c.length ≠ 0 ∧ (File.Read ⟨p, 0⟩ fs n).1 = (c.length, none)) := by
  have hlen : (pread c n 0).length = c.length := by
    simp only [pread, List.drop_zero, List.length_take]; omega
  simp only [File.Read, hres, hlen]
  by_cases h0 : c.length = 0
  · left
    refine ⟨h0, ?_⟩
    rw [if_pos ⟨by omega, h0⟩]
  · right
    refine ⟨h0, ?_⟩
    rw [if_neg (fun h => h0 h.2)]

/-- The revision-1 engine refuses a file shorter than its nine header bytes. -/
theorem OpenBlockFileV1_short (fs : FS) (p : String) (c : List Byte)
    (hres : fs p = some c) (hlen : c.length < 9) :
    ∃ e, OpenBlockFileV1 fs p = .err e := by
  have h9 : HEADER_SIZE_V1 = 9 := rfl
  have hrd := File.Read_short fs p c HEADER_SIZE_V1 hres (by rw [h9]; exact hlen)
  simp only [OpenBlockFileV1, osOpen, hres]
  generalize File.Read ⟨p, 0⟩ fs HEADER_SIZE_V1 = r at hrd ⊢
  obtain ⟨⟨n, e⟩, buf, f⟩ := r
  rcases hrd with ⟨_, h⟩ | ⟨_, h⟩
  · simp only [Prod.mk.injEq] at h
    obtain ⟨_, he⟩ := h
    subst he
    exact ⟨_, rfl⟩
  · simp only [Prod.mk.injEq] at h
    obtain ⟨hn, he⟩ := h
    subst he hn
    have hne : c.length % 2 ^ 64 ≠ HEADER_SIZE_V1 := by rw [h9]; omega
    simp only [ne_eq, hne, not_false_eq_true, if_true]
    exact ⟨_, rfl⟩

/-- The dispatcher refuses a file shorter than the five base header bytes. -/
theorem OpenBlockFile_short_base (fs : FS) (p : String) (c : List Byte)
    (hres : fs p = some c) (hlen : c.length < 5) :
    ∃ e, OpenBlockFile fs p = .err e := by
  have h5 : HEADER_SIZE_BASE = 5 := rfl
  have hrd := File.Read_short fs p c HEADER_SIZE_BASE hres (by rw [h5]; exact hlen)
  simp only [OpenBlockFile, osOpen, hres]
  generalize File.Read ⟨p, 0⟩ fs HEADER_SIZE_BASE = r at hrd ⊢
  obtain ⟨⟨n, e⟩, buf, f⟩ := r
  rcases hrd with ⟨_, h⟩ | ⟨_, h⟩
  · simp only [Prod.mk.injEq] at h
    obtain ⟨_, he⟩ := h
    subst he
    exact ⟨_, rfl⟩
  · simp only [Prod.mk.injEq] at h
    obtain ⟨hn, he⟩ := h
    subst he hn
    have hne : c.length % 2 ^ 64 ≠ HEADER_SIZE_BASE := by rw [h5]; omega
    simp only [ne_eq, hne, not_false_eq_true, if_true]
    exact ⟨_, rfl⟩

/-- C15: on an existing file of fewer than nine bytes - empty, shorter than
the base header, or five to eight bytes with any signature and revision byte,
revision 1 included - `OpenBlockFile` returns an error and no handle. -/
theorem OpenBlockFile_short_header (fs : FS) (p : String) (c : List Byte)
    (hres : fs p = some c) (hlen : c.length < 9) :
    ∃ e, OpenBlockFile fs p = .err e := by
  by_cases h5 : c.length < 5
  · exact OpenBlockFile_short_base fs p c hres h5
  · obtain ⟨b0, b1, b2, b3, v, rest, hc⟩ :
        ∃ b0 b1 b2 b3 v rest, c = b0 :: b1 :: b2 :: b3 :: v :: rest := by
      match c, h5 with
      | b0 :: b1 :: b2 :: b3 :: v :: rest, _ => exact ⟨b0, b1, b2, b3, v, rest, rfl⟩
      | [], h | [_], h | [_, _], h | [_, _, _], h | [_, _, _, _], h =>
        exact absurd (by simp) h
    rw [OpenBlockFile_base fs p b0 b1 b2 b3 v rest (hc ▸ hres)]
    split_ifs
    · exact ⟨_, rfl⟩
    · exact ⟨_, rfl⟩
    · exact OpenBlockFileV1_short fs p c hres hlen
    · exact ⟨_, rfl⟩
    · exact ⟨_, rfl⟩
    · exact ⟨_, rfl⟩

/-- Instance of C15: seven bytes starting with a valid signature and
revision 1. -/
theorem OpenBlockFile_short_header_witness :
    ∃ e, OpenBlockFile (emptyFS.set "short.bf" [0xB1, 0x0C, 0xF1, 0x1E, 1, 0, 0]) "short.bf"
      = .err e :=
  OpenBlockFile_short_header (emptyFS.set "short.bf" [0xB1, 0x0C, 0xF1, 0x1E, 1, 0, 0])
    "short.bf" [0xB1, 0x0C, 0xF1, 0x1E, 1, 0, 0] (by decide) (by decide)

/-! ## Reads outside the resource -/

/-- C16 as stated fails: on the sample container (block size 2, nine bytes)
the block of index `2^63 - 4` starts at `2^64 + 1`, far outside the resource,
but the offset wraps to 1 and `ReadBlock` returns header bytes 1 and 2 with no
error. -/
theorem ReadBlock_wrapped_counterexample :
    sampleFS sampleHandle.file.name = some sampleHeader ∧
      sampleHeader.length < 9 + (2 ^ 63 - 4) * sampleHandle.blockSize + sampleHandle.blockSize ∧
      sampleHandle.ReadBlock sampleFS (2 ^ 63 - 4) = .ok [0x0C, 0xF1] := by
  decide

/-- C16, amended: on a handle with block size `b > 0`, for every index `i`
such that the range `[o, o + b)`, with `o` the offset `9 + i*b` reduced modulo
`2^64` as the code computes it, is not entirely inside the resource,
`ReadBlock i` returns an error and no buffer. -/
theorem ReadBlock_outside_fails (bf : BlockFileV1) (fs : FS) (c : List Byte) (i : Nat)
    (hres : fs bf.file.name = some c) (hb : 0 < bf.blockSize)
    (hout : c.length < (9 + i * bf.blockSize) % 2 ^ 64 + bf.blockSize) :
    ∃ e, bf.ReadBlock fs i = .err e := by
  have h9 : HEADER_SIZE_V1 = 9 := rfl
  simp only [BlockFileV1.ReadBlock, File.ReadAt, hres, BlockFileV1.blockPos, h9]
  by_cases hneg : toInt64 ((9 + i * bf.blockSize) % 2 ^ 64) < 0
  · rw [if_pos hneg]
    exact ⟨_, rfl⟩
  · rw [if_neg hneg]
    have hlt : (9 + i * bf.blockSize) % 2 ^ 64 < 2 ^ 63 := by
      by_contra hge
      apply hneg
      unfold toInt64
      rw [if_neg hge]
      have := Nat.mod_lt (9 + i * bf.blockSize) (show 2 ^ 64 > 0 by decide)
      omega
    have hto : (toInt64 ((9 + i * bf.blockSize) % 2 ^ 64)).toNat
        = (9 + i * bf.blockSize) % 2 ^ 64 := by
      unfold toInt64
      rw [if_pos hlt, Int.toNat_ofNat]
    have hshort : (pread c bf.blockSize ((9 + i * bf.blockSize) % 2 ^ 64)).length
        < bf.blockSize := by
      simp only [pread, List.length_take, List.length_drop]
      omega
    simp only [hto, if_pos hshort]
    exact ⟨_, rfl⟩

/-- Instance of the amended C16: block 0 of the bare sample container lies
past the end of the resource. -/
theorem ReadBlock_outside_fails_witness :
    ∃ e, sampleHandle.ReadBlock sampleFS 0 = .err e :=
  ReadBlock_outside_fails sampleHandle sampleFS sampleHeader 0
    (by decide) (by decide) (by decide)

/-! ## Handles with a zero block size -/

/-- C17 fails on a file whose header stores block size 0: `OpenBlockFile`
returns a handle with `BlockSize() = 0`, on which the division in `NumBlocks`
is undefined, although `NewBlockFileV1` refuses to create such a container. -/
theorem open_accepts_zero_block_size :
    OpenBlockFile (emptyFS.set "z.bf" [0xB1, 0x0C, 0xF1, 0x1E, 1, 0, 0, 0, 0]) "z.bf" =
        .ok { version := 1, fileName := "z.bf", blockSize := 0, file := ⟨"z.bf", 9⟩ } ∧
      BlockFileV1.BlockSize
        { version := 1, fileName := "z.bf", blockSize := 0, file := ⟨"z.bf", 9⟩ } = 0 ∧
      BlockFileV1.NumBlocks
        { version := 1, fileName := "z.bf", blockSize := 0, file := ⟨"z.bf", 9⟩ }
        (emptyFS.set "z.bf" [0xB1, 0x0C, 0xF1, 0x1E, 1, 0, 0, 0, 0]) = none ∧
      (NewBlockFile sampleEnv emptyFS "z.bf" V1 0).1 = .err .blockSizeZero := by
  decide

/-! ## Resources shorter than the header -/

/-- C18 fails on a resource truncated to one byte, with block size 2: the
unsigned `size - 9` wraps to `2^64 - 8`, a multiple of 2, so `NumBlocks`
returns `2^63 - 4` and no error although 1 is not `9 + k*2` for any `k`. -/
theorem NumBlocks_wraps_below_header :
    sampleHandle.NumBlocks (emptyFS.set "a.bf" [0xB1]) = some (2 ^ 63 - 4, none) ∧
      ∀ k : Nat, ([0xB1] : List Byte).length ≠ 9 + k * sampleHandle.blockSize := by
  refine ⟨by decide, ?_⟩
  intro k h
  simp only [List.length_singleton] at h
  omega

/-! ## Opening a missing path -/

/-- C19 fails on any missing path: `OpenBlockFile` ends in `log.Fatal`, which
terminates the process, where the revision-1 opener returns an error for the
same failure. -/
theorem open_missing_path_is_fatal :
    OpenBlockFile emptyFS "doesntexist.bf" = .fatal ∧
      OpenBlockFileV1 emptyFS "doesntexist.bf" = .err (.v1OpenFailed .notExist) := by
  decide

/-! ## Frame of a block write -/

/-- A positioned write leaves every old byte outside the written range. -/
theorem pwrite_getElem_outside (l buf : List Byte) (off k : Nat) (hk : k < l.length)
    (hout : k < off ∨ off + buf.length ≤ k) :
    (pwrite l buf off)[k]? = l[k]? := by
  have hlen : ((l ++ List.replicate (off - l.length) (0 : Byte)).take off).length = off := by
    simp only [List.length_take, List.length_append, List.length_replicate]
    omega
  simp only [pwrite, List.append_assoc]
  rcases hout with h | h
  · rw [List.getElem?_append_left (by omega), List.getElem?_take_of_lt h,
      List.getElem?_append_left hk]
  · rw [List.getElem?_append_right (by omega), hlen,
      List.getElem?_append_right (by omega), List.getElem?_drop,
      List.getElem?_append_left (by omega)]
    congr 1
    omega

/-- A read inside the old content and disjoint from a positioned write sees
the old bytes. -/
theorem pread_pwrite_disjoint (l buf : List Byte) (off n off1 : Nat)
    (hin : off1 + n ≤ l.length)
    (hdis : off1 + n ≤ off ∨ off + buf.length ≤ off1) :
    pread (pwrite l buf off) n off1 = pread l n off1 := by
  apply List.ext_getElem?
  intro m
  simp only [pread]
  by_cases hm : m < n
  · rw [List.getElem?_take_of_lt hm, List.getElem?_take_of_lt hm, List.getElem?_drop,
      List.getElem?_drop]
    exact pwrite_getElem_outside l buf off (off1 + m) (by omega) (by omega)
  · rw [List.getElem?_eq_none (by simp only [List.length_take]; omega),
      List.getElem?_eq_none (by simp only [List.length_take]; omega)]

/-- A payload shorter than `2^32` bytes is normalised to `blockSize` bytes. -/
theorem writeBuffer_length_of_lt (bf : BlockFileV1) (d : List Byte)
    (hb32 : bf.blockSize < 2 ^ 32) (hd : d.length < 2 ^ 32) :
    (bf.writeBuffer d).length = bf.blockSize := by
  by_cases hle : d.length ≤ bf.blockSize
  · exact writeBuffer_length_of_le bf d hb32 hle
  · have h1 : d.length % 2 ^ 32 = d.length := Nat.mod_eq_of_lt hd
    unfold BlockFileV1.writeBuffer
    simp only [h1]
    rw [if_pos (by omega), if_neg (by omega), List.length_take]
    omega

/-- Blocks of different indices do not overlap. -/
theorem blocks_disjoint (b i j : Nat) (hji : j ≠ i) :
    9 + j * b + b ≤ 9 + i * b ∨ 9 + i * b + b ≤ 9 + j * b := by
  rcases Nat.lt_or_gt_of_ne hji with h | h
  · left
    have := Nat.mul_le_mul_right b (show j + 1 ≤ i from h)
    rw [Nat.succ_mul] at this
    omega
  · right
    have := Nat.mul_le_mul_right b (show i + 1 ≤ j from h)
    rw [Nat.succ_mul] at this
    omega

/-- C20: `WriteBlock` touches only its own block.  On a handle with block
size `b > 0`, for an index `i` with `9 + i*b + b ≤ 2^63 - 1`, a payload
shorter than `2^32` bytes and an index `j ≠ i` whose block lay entirely inside
the resource: `ReadBlock j` returns the bytes of block `j` before the call,
and returns the same after `WriteBlock payload i`, whether that call succeeded
or not; a successful call returned `b`, and the call does succeed when
`9 + i*b + b` is within the largest file size the file system accepts. -/
theorem WriteBlock_frame (bf : BlockFileV1) (env : Env) (fs : FS) (c blk : List Byte)
    (i j : Nat)
    (hres : fs bf.file.name = some c) (hmax : c.length ≤ 2 ^ 63 - 1)
    (hb : 0 < bf.blockSize) (hb32 : bf.blockSize < 2 ^ 32)
    (hi : 9 + i * bf.blockSize + bf.blockSize ≤ 2 ^ 63 - 1)
    (hblk : blk.length < 2 ^ 32)
    (hji : j ≠ i) (hj : 9 + j * bf.blockSize + bf.blockSize ≤ c.length) :
    bf.ReadBlock fs j = .ok (pread c bf.blockSize (9 + j * bf.blockSize)) ∧
      bf.ReadBlock (bf.WriteBlock env fs blk i).2 j = bf.ReadBlock fs j ∧
      ((bf.WriteBlock env fs blk i).1.2 = none →
        (bf.WriteBlock env fs blk i).1 = (bf.blockSize, none)) ∧
      (9 + i * bf.blockSize + bf.blockSize ≤ env.maxFileSize →
        (bf.WriteBlock env fs blk i).1 = (bf.blockSize, none)) := by
  have hlen := writeBuffer_length_of_lt bf blk hb32 hblk
  have hposi : 9 + i * bf.blockSize ≤ maxInt64 := by unfold maxInt64; omega
  have hposj : 9 + j * bf.blockSize ≤ maxInt64 := by unfold maxInt64; omega
  have hbefore := ReadBlock_inside bf fs c j hres hposj hj
  have hdis := blocks_disjoint bf.blockSize i j hji
  refine ⟨hbefore, ?_, ?_, ?_⟩
  · rcases WriteBlock_store bf env fs c blk i hres hposi with hsame | ⟨buf1, hle, hset⟩
    · rw [hsame]
    · rw [hset, hbefore]
      have hafter := ReadBlock_inside bf
        (fs.set bf.file.name (pwrite c buf1 (9 + i * bf.blockSize)))
        (pwrite c buf1 (9 + i * bf.blockSize)) j (FS.set_same _ _ _) hposj
        (by rw [pwrite_length]; omega)
      rw [hafter, pread_pwrite_disjoint c buf1 (9 + i * bf.blockSize) bf.blockSize
        (9 + j * bf.blockSize) hj (by omega)]
  · intro hok
    obtain ⟨h1, h2⟩ := WriteBlock_success_fits bf env fs c blk i hres (by omega) hposi hok
    rw [WriteBlock_fits bf env fs c blk i hres (by omega) h1 h2, hlen]
  · intro hfit
    rw [WriteBlock_fits bf env fs c blk i hres (by rw [hlen]; omega)
      (by rw [hlen]; unfold maxInt64; omega) (by rw [hlen]; exact hfit), hlen]

/-- Instance of C20: rewriting block 1 of a two-block container leaves
block 0 as it was. -/
theorem WriteBlock_frame_witness :
    sampleHandle.ReadBlock (emptyFS.set "a.bf" (sampleHeader ++ [1, 2, 3, 4])) 0
        = .ok (pread (sampleHeader ++ [1, 2, 3, 4]) 2 (9 + 0 * 2)) ∧
      sampleHandle.ReadBlock
          (sampleHandle.WriteBlock sampleEnv (emptyFS.set "a.bf" (sampleHeader ++ [1, 2, 3, 4]))
            [7, 8] 1).2 0
        = sampleHandle.ReadBlock (emptyFS.set "a.bf" (sampleHeader ++ [1, 2, 3, 4])) 0 ∧
      (sampleHandle.WriteBlock sampleEnv (emptyFS.set "a.bf" (sampleHeader ++ [1, 2, 3, 4]))
          [7, 8] 1).1 = (2, none) :=
  ⟨(WriteBlock_frame sampleHandle sampleEnv (emptyFS.set "a.bf" (sampleHeader ++ [1, 2, 3, 4]))
      (sampleHeader ++ [1, 2, 3, 4]) [7, 8] 1 0
      (by decide) (by decide) (by decide) (by decide) (by decide) (by decide) (by decide)
      (by decide)).1,
    (WriteBlock_frame sampleHandle sampleEnv (emptyFS.set "a.bf" (sampleHeader ++ [1, 2, 3, 4]))
      (sampleHeader ++ [1, 2, 3, 4]) [7, 8] 1 0
      (by decide) (by decide) (by decide) (by decide) (by decide) (by decide) (by decide)
      (by decide)).2.1,
    (WriteBlock_frame sampleHandle sampleEnv (emptyFS.set "a.bf" (sampleHeader ++ [1, 2, 3, 4]))
      (sampleHeader ++ [1, 2, 3, 4]) [7, 8] 1 0
      (by decide) (by decide) (by decide) (by decide) (by decide) (by decide) (by decide)
      (by decide)).2.2.2 (by decide)⟩

end Blockfile
